import Mathlib

/-!
Verification development for the safesonnet SafeImporter (Go).

The embedding models the current implementation: `filepath` string
arithmetic (Clean, Join, Rel, Dir, IsAbs) over Unix paths, the
`os.Root`-confined read primitive, the `sync.Map` file cache as an
association list, and the resolution pipeline
`Import -> tryPrimaryImport / searchJPaths -> tryAbsPath`.

Strings are modelled as lists of characters (Go indexes bytes; all
reasoning here is on the character level, which coincides for ASCII
paths). The filesystem is a finite map from canonical absolute paths to
file contents plus a set of root-relative paths whose operating-system
resolution escapes the root (symbolic links pointing outside); `os.Root`
refuses those with an error that is not `IsNotExist`.
-/

namespace Safesonnet

/-- The path component consisting of two dots. -/
def dotdot : List Char := ['.', '.']

/-- Split a character list on the separator character, like
`strings.Split(s, "/")`: always returns at least one (possibly empty)
component. -/
def splitSlash : List Char → List (List Char)
  | [] => [[]]
  | c :: rest =>
    if c = '/' then [] :: splitSlash rest
    else
      match splitSlash rest with
      | comp :: comps => (c :: comp) :: comps
      | [] => [[c]]

/-- Join components with the separator, like `strings.Join(cs, "/")`. -/
def joinSlash : List (List Char) → List Char
  | [] => []
  | [c] => c
  | c :: cs => c ++ '/' :: joinSlash cs

/-- Drop empty and single-dot components; `filepath.Clean` skips both. -/
def filterComps (cs : List (List Char)) : List (List Char) :=
  cs.filter (fun c => c != [] && c != ['.'])

/-- The stack loop of `filepath.Clean` (Plan 9 cleanname): a `..`
component pops a previous real component, is dropped at the root of a
rooted path, and is kept on an unrooted path that has nothing to pop.
The stack is kept reversed (most recent first). -/
def cleanRev (rooted : Bool) : List (List Char) → List (List Char) → List (List Char)
  | stack, [] => stack
  | stack, c :: cs =>
    if c = dotdot then
      match stack with
      | [] => cleanRev rooted (if rooted then [] else [dotdot]) cs
      | top :: rest =>
        if top = dotdot then cleanRev rooted (dotdot :: top :: rest) cs
        else cleanRev rooted rest cs
    else cleanRev rooted (c :: stack) cs

/-- Resolve `.` and `..` components as `filepath.Clean` does. -/
def cleanComps (rooted : Bool) (cs : List (List Char)) : List (List Char) :=
  (cleanRev rooted [] cs).reverse

/-- Whether the path begins with the separator (`filepath.IsAbs` on Unix). -/
def pathRooted (s : String) : Bool := s.data.head? == some '/'

/-- Render rootedness and components back to a path string; the empty
component list renders as the root or as the current directory. -/
def render (rooted : Bool) (cs : List (List Char)) : String :=
  if cs = [] then (if rooted then "/" else ".")
  else if rooted then ⟨'/' :: joinSlash cs⟩
  else ⟨joinSlash cs⟩

/-- The cleaned component list of a path. -/
def pathComps (s : String) : List (List Char) :=
  cleanComps (pathRooted s) (filterComps (splitSlash s.data))

/-- `filepath.Clean` on Unix. -/
def goClean (s : String) : String := render (pathRooted s) (pathComps s)

/-- `filepath.IsAbs` on Unix. -/
def goIsAbs (s : String) : Bool := pathRooted s

/-- Concatenate with separators, as `strings.Join` over the non-empty
elements inside `filepath.Join`. -/
def joinData : List String → List Char
  | [] => []
  | [x] => x.data
  | x :: xs => x.data ++ '/' :: joinData xs

/-- `filepath.Join`: drop empty elements, join with the separator and
clean; all elements empty yields the empty string uncleaned. -/
def goJoin (elems : List String) : String :=
  match elems.filter (fun e => e != "") with
  | [] => ""
  | ne => goClean ⟨joinData ne⟩

/-- `filepath.Abs` with an explicit working directory `cwd`. -/
def absWith (cwd p : String) : String :=
  if goIsAbs p then goClean p else goJoin [cwd, p]

/-- The portion of the path up to and including the last separator
(empty when there is none), as used by `filepath.Dir`. -/
def upToLastSlash (cs : List Char) : List Char :=
  (cs.reverse.dropWhile (fun c => c != '/')).reverse

/-- `filepath.Dir` on Unix. -/
def goDir (s : String) : String := goClean ⟨upToLastSlash s.data⟩

/-- Character-list version of `strings.HasPrefix s pre`. -/
def listHasPre : List Char → List Char → Bool
  | _, [] => true
  | [], _ :: _ => false
  | c :: cs, p :: ps => c == p && listHasPre cs ps

/-- `strings.HasPrefix` on strings. -/
def strStarts (s pre : String) : Bool := listHasPre s.data pre.data

/-- Component-list prefix test (the semantic descendant relation). -/
def compIsPre : List (List Char) → List (List Char) → Bool
  | [], _ => true
  | _ :: _, [] => false
  | a :: as, b :: bs => a == b && compIsPre as bs

/-- `cand` is the directory `root` itself or a path below it, component
by component: the semantic notion of residing inside the root. -/
def underRoot (root cand : String) : Bool :=
  goIsAbs cand && compIsPre (pathComps root) (pathComps cand)

/-- Strip the longest common component prefix from two lists. -/
def dropCommon : List (List Char) → List (List Char) → List (List Char) × List (List Char)
  | a :: as, b :: bs => if a = b then dropCommon as bs else (a :: as, b :: bs)
  | as, bs => (as, bs)

/-- `filepath.Rel` on Unix: `none` models the error return. -/
def goRel (base targ : String) : Option String :=
  if goClean base = goClean targ then some "."
  else if goIsAbs (goClean base) != goIsAbs (goClean targ) then none
  else
    let pr := dropCommon (pathComps base) (pathComps targ)
    if pr.1.head? == some dotdot then none
    else some (render false (List.replicate pr.1.length dotdot ++ pr.2))

/-- The test `err != nil || strings.HasPrefix(rel, "..") ||
(strings.HasPrefix(rel, "/") && rel != ".")` the importer applies to the
result of `filepath.Rel(rootAbsPath, candidate)`. -/
def relOutside : Option String → Bool
  | none => true
  | some rel => strStarts rel ".." || (strStarts rel "/" && rel != ".")

/-- The importer's inside-root classification of a candidate. -/
def rootRelInside (root cand : String) : Bool := !(relOutside (goRel root cand))

/-- `isSubpath` from the source: string-level subpath test with an
explicit separator check after the parent prefix. -/
def isSubpath (parent sub : String) : Bool :=
  let p := (goClean parent).data
  let s := (goClean sub).data
  p == s ||
    (decide (p.length < s.length) && decide (s.take p.length = p) && s[p.length]? == some '/')

/-- `strings.Contains(s, "\x00")`. -/
def containsNull (s : String) : Bool := s.data.contains '\x00'

/-- A cache entry of the importer: a successful read (contents plus the
path reported for it) or a recorded not-exist result. The source stores
an `os.IsNotExist` error for the latter; no other error is ever stored. -/
inductive CacheEntry where
  | found (contents foundAt : String)
  | notExist
deriving DecidableEq

/-- The filesystem visible through the root: contents of regular files
keyed by canonical absolute path, and the set of root-relative paths
whose operating-system resolution escapes the root through a symbolic
link (for which `os.Root` reports a path-escapes error). -/
structure FS where
  files : List (String × String)
  escapes : List String
deriving DecidableEq

/-- The SafeImporter state: search paths, the canonical absolute root
path, whether `Close` has released the `os.Root` handle, and the file
cache. -/
structure Importer where
  JPaths : List String
  rootAbsPath : String
  closed : Bool
  fsCache : List (String × CacheEntry)
deriving DecidableEq

/-- Lookup in the modelled filesystem map. -/
def fsLookup : List (String × String) → String → Option String
  | [], _ => none
  | (k, v) :: rest, a => if k = a then some v else fsLookup rest a

/-- Lookup in the modelled cache map. -/
def cacheLookup : List (String × CacheEntry) → String → Option CacheEntry
  | [], _ => none
  | (k, e) :: rest, a => if k = a then some e else cacheLookup rest a

/-- Outcome of `root.Open` followed by `io.ReadAll`: success, a
not-exist error, a path-escapes error (symlink or lexical escape, not
`IsNotExist`), or the error from using a closed handle. -/
inductive OpenResult where
  | ok (data : String)
  | notExist
  | escapeErr
  | closedErr
deriving DecidableEq

/-- The confined read through the `os.Root` handle: fails once the
handle is closed; refuses, at the operating-system level, any path that
does not stay inside the root (whether lexically or through a symbolic
link recorded in `escapes`); otherwise reports the contents of the file
at the resolved absolute path, or not-exist. -/
def osRootOpen (fs : FS) (rootAbs : String) (closed : Bool) (rel : String) : OpenResult :=
  if closed then .closedErr
  else if !(underRoot rootAbs (goJoin [rootAbs, rel])) then .escapeErr
  else if fs.escapes.contains rel then .escapeErr
  else
    match fsLookup fs.files (goJoin [rootAbs, rel]) with
    | some d => .ok d
    | none => .notExist

/-- The sentinel errors `Import` can return. -/
inductive ImpError where
  | invalidNullByte
  | forbiddenAbsolutePath
  | forbiddenRelativePathTraversal
  | fileNotFound
  | readFile
deriving DecidableEq

/-- Result of `tryAbsPath` / `tryPrimaryImport`. -/
inductive TryResult where
  | found (contents foundAt : String)
  | notFound
  | failed (e : ImpError)
deriving DecidableEq

/-- The triple `Import` returns: contents, the path the file was found
at, and the error; mirrors the Go multi-value return shape. -/
structure ImportResult where
  contents : String
  foundAt : String
  err : Option ImpError
deriving DecidableEq

/-- `tryAbsPath` from the source: consult the cache under the canonical
absolute path, otherwise read `relPath` through the root handle, caching
a success or a not-exist result (other failures are returned, wrapped as
the read-file error, and are not cached). -/
def tryAbsPath (st : Importer) (fs : FS) (absPath relPath : String) : TryResult × Importer :=
  match cacheLookup st.fsCache absPath with
  | some (.found c f) => (.found c f, st)
  | some .notExist => (.notFound, st)
  | none =>
    match osRootOpen fs st.rootAbsPath st.closed relPath with
    | .ok data =>
        (.found data absPath, { st with fsCache := (absPath, .found data absPath) :: st.fsCache })
    | .notExist => (.notFound, { st with fsCache := (absPath, .notExist) :: st.fsCache })
    | .escapeErr => (.failed .readFile, st)
    | .closedErr => (.failed .readFile, st)

/-- `resolveImportPath` from the source: the primary candidate (cleaned
absolute path the request resolves to) and whether the original import
path was absolute. `cwd` is the working directory `filepath.Abs` uses. -/
def resolveImportPath (cwd importedFrom importedPath : String) : String × Bool :=
  if goIsAbs importedPath then (goClean importedPath, true)
  else if importedFrom != "" then
    (goClean (goJoin [(if goIsAbs (goDir importedFrom) then goDir importedFrom
      else absWith cwd (goDir importedFrom)), importedPath]), false)
  else (goClean (absWith cwd importedPath), false)

/-- The rejection arm of `tryPrimaryImport` when the primary candate is
classified outside the root: absolute imports as well as nested
relative imports are terminal errors, an initial relative import falls
through to the library search. -/
def primaryReject (st : Importer) (isAbsImport : Bool) (importedFrom : String) :
    TryResult × Importer :=
  if isAbsImport then (.failed .forbiddenAbsolutePath, st)
  else if importedFrom != "" then (.failed .forbiddenRelativePathTraversal, st)
  else (.notFound, st)

/-- `tryPrimaryImport` from the source: resolve the primary candidate,
classify it against the root with the `filepath.Rel` test, reject or
fall through when outside, and read through `tryAbsPath` when inside. -/
def tryPrimaryImport (st : Importer) (fs : FS) (cwd importedFrom importedPath : String) :
    TryResult × Importer :=
  match goRel st.rootAbsPath (resolveImportPath cwd importedFrom importedPath).1 with
  | none => primaryReject st (resolveImportPath cwd importedFrom importedPath).2 importedFrom
  | some rel =>
    if strStarts rel ".." || (strStarts rel "/" && rel != ".") then
      primaryReject st (resolveImportPath cwd importedFrom importedPath).2 importedFrom
    else tryAbsPath st fs (resolveImportPath cwd importedFrom importedPath).1 rel

/-- `ensureDotInSearchPaths` from the source. -/
def ensureDotInSearchPaths (paths : List String) : List String :=
  if paths.contains "." then paths else "." :: paths

/-- The loop body of `searchJPaths`: skip candidates the `Rel` test
classifies outside the root, read the rest through `tryAbsPath`,
stopping at the first success or error; an exhausted list is the
file-not-found error. -/
def sjLoop (fs : FS) (importedPath : String) : Importer → List String → ImportResult × Importer
  | st, [] => (⟨"", "", some .fileNotFound⟩, st)
  | st, jp :: rest =>
    match goRel st.rootAbsPath (goClean (goJoin [st.rootAbsPath, jp, importedPath])) with
    | none => sjLoop fs importedPath st rest
    | some rel =>
      if strStarts rel ".." || (strStarts rel "/" && rel != ".") then
        sjLoop fs importedPath st rest
      else
        match tryAbsPath st fs (goClean (goJoin [st.rootAbsPath, jp, importedPath])) rel with
        | (.found c f, st2) => (⟨c, f, none⟩, st2)
        | (.notFound, st2) => sjLoop fs importedPath st2 rest
        | (.failed e, st2) => (⟨"", "", some e⟩, st2)

/-- `searchJPaths` from the source: for an initial import the root
itself is prepended to the configured search paths when absent. -/
def searchJPaths (st : Importer) (fs : FS) (importedFrom importedPath : String) :
    ImportResult × Importer :=
  sjLoop fs importedPath st
    (if importedFrom = "" then ensureDotInSearchPaths st.JPaths else st.JPaths)

/-- `Import` from the source: null-byte validation, the primary
candidate, then the library-path fallback. -/
def Import (st : Importer) (fs : FS) (cwd importedFrom importedPath : String) :
    ImportResult × Importer :=
  if containsNull importedPath then (⟨"", "", some .invalidNullByte⟩, st)
  else if containsNull importedFrom then (⟨"", "", some .invalidNullByte⟩, st)
  else
    match tryPrimaryImport st fs cwd importedFrom importedPath with
    | (.failed e, st2) => (⟨"", "", some e⟩, st2)
    | (.found c f, st2) => (⟨c, f, none⟩, st2)
    | (.notFound, st2) => searchJPaths st2 fs importedFrom importedPath

/-- `Close` from the source: releases the `os.Root` handle; the cache is
untouched. -/
def Close (st : Importer) : Importer := { st with closed := true }

/-- Construction-time errors of `NewSafeImporter` that the claims are
about. -/
inductive ConErr where
  | emptyRootDir
  | invalidNullByte (jp : String)
  | jpathOutsideRoot (jp : String)
deriving DecidableEq

/-- `resolveJPath` from the source: interpret the library path against
the absolute root, clean it, and demand the `Rel`-test classify it
inside the root; `none` models the jpath-outside-root error. -/
def resolveJPath (rootAbs jp : String) : Option String :=
  match goRel rootAbs (goClean (if goIsAbs jp then jp else goJoin [rootAbs, jp])) with
  | none => none
  | some rel =>
    if strStarts rel ".." || (strStarts rel "/" && rel != ".") then none else some rel

/-- The loop of `processJPaths`: skip empty entries, reject null bytes,
resolve each remaining path to its root-relative form. -/
def processLoop (rootAbs : String) : List String → Except ConErr (List String)
  | [] => .ok []
  | jp :: rest =>
    if jp = "" then processLoop rootAbs rest
    else if containsNull jp then .error (.invalidNullByte jp)
    else
      match resolveJPath rootAbs jp with
      | none => .error (.jpathOutsideRoot jp)
      | some rel =>
        match processLoop rootAbs rest with
        | .error e => .error e
        | .ok acc => .ok (rel :: acc)

/-- `processJPaths` from the source: an empty configured list means the
root itself, and so does a list from which nothing survives. -/
def processJPaths (rootAbs : String) (jpaths : List String) : Except ConErr (List String) :=
  match processLoop rootAbs (if jpaths = [] then ["."] else jpaths) with
  | .error e => .error e
  | .ok acc => .ok (if acc = [] then ["."] else acc)

/-- The absolute root path `NewSafeImporter` computes with
`filepath.Abs(rootDir)`. -/
def rootAbsOf (cwd rootDir : String) : String := absWith cwd rootDir

/-- `NewSafeImporter` from the source (the `os.OpenRoot` success is
assumed: the root directory exists). -/
def NewSafeImporter (cwd rootDir : String) (jpaths : List String) : Except ConErr Importer :=
  if rootDir = "" then .error .emptyRootDir
  else
    match processJPaths (rootAbsOf cwd rootDir) jpaths with
    | .error e => .error e
    | .ok js => .ok ⟨js, rootAbsOf cwd rootDir, false, []⟩

/-- A freshly constructed importer over a given absolute root. -/
def mkImporter (root : String) (jps : List String) : Importer := ⟨jps, root, false, []⟩

/-- Soundness facts a cache entry provides: a successful entry carries
its own key as the found-at path, resides inside the root, and matches
the filesystem. -/
def EntryOK (root : String) (fs : FS) (k : String) : CacheEntry → Prop
  | .found c f => f = k ∧ underRoot root k = true ∧ fsLookup fs.files k = some c
  | .notExist => True

/-- Every cache entry of the importer is sound for the filesystem. -/
def CacheOK (st : Importer) (fs : FS) : Prop :=
  ∀ k e, cacheLookup st.fsCache k = some e → EntryOK st.rootAbsPath fs k e

/-- Accuracy of a cache entry: sound, and a not-exist entry really does
not name a file. -/
def EntryAcc (root : String) (fs : FS) (k : String) : CacheEntry → Prop
  | .found c f => f = k ∧ underRoot root k = true ∧ fsLookup fs.files k = some c
  | .notExist => fsLookup fs.files k = none

/-- Every cache entry of the importer is accurate for the filesystem. -/
def CacheAcc (st : Importer) (fs : FS) : Prop :=
  ∀ k e, cacheLookup st.fsCache k = some e → EntryAcc st.rootAbsPath fs k e

/-- Declarative description of the library search: the first search
directory, in order, whose candidate is classified inside the root and
names an existing file, together with that content and candidate path. -/
def searchFirst (root : String) (fs : FS) (importedPath : String) :
    List String → Option (String × String)
  | [] => none
  | jp :: rest =>
    if rootRelInside root (goClean (goJoin [root, jp, importedPath])) then
      match fsLookup fs.files (goClean (goJoin [root, jp, importedPath])) with
      | some c => some (c, goClean (goJoin [root, jp, importedPath]))
      | none => searchFirst root fs importedPath rest
    else searchFirst root fs importedPath rest

/-- The first root-relative component of the candidate below the root
begins with two dots (as in a file name such as `..x`): the case where
the `filepath.Rel`-based classification diverges from the descendant
relation. -/
def firstRelCompDD (root cand : String) : Bool :=
  match (dropCommon (pathComps root) (pathComps cand)).2.head? with
  | some c => listHasPre c dotdot
  | none => false

/-! Support lemmas about the path functions. -/

lemma splitSlash_ne_nil : ∀ cs : List Char, splitSlash cs ≠ []
  | [] => by simp [splitSlash]
  | c :: rest => by
    simp only [splitSlash]
    split
    · simp
    · split <;> simp

lemma splitSlash_cons_ne (c : Char) (cs : List Char) (hc : c ≠ '/') (a : List Char)
    (as : List (List Char)) (h : splitSlash cs = a :: as) :
    splitSlash (c :: cs) = (c :: a) :: as := by
  simp [splitSlash, if_neg hc, h]

lemma splitSlash_append (x y : List Char) :
    splitSlash (x ++ '/' :: y) = splitSlash x ++ splitSlash y := by
  induction x with
  | nil => simp [splitSlash]
  | cons c cs ih =>
    by_cases hc : c = '/'
    · subst hc
      simp [splitSlash, ih]
    · cases h : splitSlash cs with
      | nil => exact absurd h (splitSlash_ne_nil cs)
      | cons a as =>
        have hstep1 : splitSlash (cs ++ '/' :: y) = a :: (as ++ splitSlash y) := by
          rw [ih, h]
          rfl
        have hL : splitSlash (c :: (cs ++ '/' :: y)) = (c :: a) :: (as ++ splitSlash y) :=
          splitSlash_cons_ne c _ hc _ _ hstep1
        have hR : splitSlash (c :: cs) = (c :: a) :: as := splitSlash_cons_ne c cs hc a as h
        rw [List.cons_append, hL, hR]
        rfl

lemma splitSlash_no_slash (cs : List Char) : ∀ c ∈ splitSlash cs, '/' ∉ c := by
  induction cs with
  | nil => simp [splitSlash]
  | cons a as ih =>
    intro c hc
    by_cases ha : a = '/'
    · subst ha
      simp only [splitSlash, if_pos rfl] at hc
      rcases List.mem_cons.mp hc with h1 | h1
      · simp [h1]
      · exact ih c h1
    · rcases h : splitSlash as with _ | ⟨b, bs⟩
      · exact absurd h (splitSlash_ne_nil as)
      · simp only [splitSlash, if_neg ha, h] at hc
        rcases List.mem_cons.mp hc with h1 | h1
        · subst h1
          intro hmem
          rcases List.mem_cons.mp hmem with h2 | h2
          · exact ha h2.symm
          · exact ih b (h ▸ List.mem_cons_self b bs) h2
        · exact ih c (h ▸ List.mem_cons_of_mem b h1)

lemma splitSlash_single (c : List Char) (h : '/' ∉ c) : splitSlash c = [c] := by
  induction c with
  | nil => simp [splitSlash]
  | cons a as ih =>
    have ha : a ≠ '/' := fun hh => h (hh ▸ List.mem_cons_self a as)
    have has : '/' ∉ as := fun hh => h (List.mem_cons_of_mem a hh)
    simp [splitSlash, if_neg ha, ih has]

lemma splitSlash_join (cs : List (List Char)) (h : cs ≠ []) (h2 : ∀ c ∈ cs, '/' ∉ c) :
    splitSlash (joinSlash cs) = cs := by
  induction cs with
  | nil => exact absurd rfl h
  | cons a as ih =>
    cases as with
    | nil => exact splitSlash_single a (h2 a (List.mem_cons_self a []))
    | cons b bs =>
      have hstep : joinSlash (a :: b :: bs) = a ++ '/' :: joinSlash (b :: bs) := rfl
      rw [hstep, splitSlash_append, splitSlash_single a (h2 a (List.mem_cons_self a _)),
        ih (by simp) (fun c hc => h2 c (List.mem_cons_of_mem a hc))]
      rfl

lemma joinSlash_append (a b : List (List Char)) (ha : a ≠ []) (hb : b ≠ []) :
    joinSlash (a ++ b) = joinSlash a ++ '/' :: joinSlash b := by
  induction a with
  | nil => exact absurd rfl ha
  | cons x xs ih =>
    cases xs with
    | nil =>
      cases b with
      | nil => exact absurd rfl hb
      | cons y ys => rfl
    | cons z zs =>
      have h1 : joinSlash ((x :: z :: zs) ++ b) = x ++ '/' :: joinSlash ((z :: zs) ++ b) := by
        cases b <;> rfl
      have h2 : joinSlash (x :: z :: zs) = x ++ '/' :: joinSlash (z :: zs) := rfl
      rw [h1, ih (by simp), h2]
      simp

lemma joinSlash_ne_nil (c : List Char) (cs : List (List Char)) (h : c ≠ []) :
    joinSlash (c :: cs) ≠ [] := by
  cases cs with
  | nil => simpa [joinSlash] using h
  | cons d ds =>
    have : joinSlash (c :: d :: ds) = c ++ '/' :: joinSlash (d :: ds) := rfl
    rw [this]
    simp

lemma cleanRev_no_dd (rooted : Bool) (stack cs : List (List Char)) (h : dotdot ∉ cs) :
    cleanRev rooted stack cs = cs.reverse ++ stack := by
  induction cs generalizing stack with
  | nil => simp [cleanRev]
  | cons c cs ih =>
    have hc : c ≠ dotdot := fun hh => h (hh ▸ List.mem_cons_self c cs)
    have hcs : dotdot ∉ cs := fun hh => h (List.mem_cons_of_mem c hh)
    simp [cleanRev, if_neg hc, ih (c :: stack) hcs]

lemma cleanComps_no_dd (rooted : Bool) (cs : List (List Char)) (h : dotdot ∉ cs) :
    cleanComps rooted cs = cs := by
  simp [cleanComps, cleanRev_no_dd rooted [] cs h]

lemma cleanRev_rooted_no_dd (stack cs : List (List Char)) (h : dotdot ∉ stack) :
    dotdot ∉ cleanRev true stack cs := by
  induction cs generalizing stack with
  | nil => simpa [cleanRev]
  | cons c cs ih =>
    by_cases hc : c = dotdot
    · subst hc
      cases stack with
      | nil =>
        simp only [cleanRev, if_pos rfl]
        exact ih [] (by simp)
      | cons top rest =>
        have htop : top ≠ dotdot := fun hh => h (hh ▸ List.mem_cons_self top rest)
        simp only [cleanRev, if_pos rfl, if_neg htop]
        exact ih rest (fun hh => h (List.mem_cons_of_mem top hh))
    · simp only [cleanRev, if_neg hc]
      exact ih (c :: stack) (by
        intro hh
        rcases List.mem_cons.mp hh with h1 | h1
        · exact hc h1.symm
        · exact h h1)

lemma cleanComps_rooted_no_dd (cs : List (List Char)) : dotdot ∉ cleanComps true cs := by
  simp only [cleanComps, List.mem_reverse]
  exact cleanRev_rooted_no_dd [] cs (by simp)

lemma cleanRev_dds : ∀ (k m : ℕ) (ds : List (List Char)), dotdot ∉ ds →
    cleanRev false (List.replicate m dotdot) (List.replicate k dotdot ++ ds) =
      ds.reverse ++ List.replicate (k + m) dotdot := by
  intro k
  induction k with
  | zero =>
    intro m ds hds
    simpa using cleanRev_no_dd false (List.replicate m dotdot) ds hds
  | succ n ih =>
    intro m ds hds
    have hstep : List.replicate (n + 1) dotdot ++ ds =
        dotdot :: (List.replicate n dotdot ++ ds) := by
      simp [List.replicate_succ]
    rw [hstep]
    cases m with
    | zero =>
      simp only [List.replicate_zero]
      have h1 : cleanRev false [] (dotdot :: (List.replicate n dotdot ++ ds)) =
          cleanRev false [dotdot] (List.replicate n dotdot ++ ds) := by
        simp [cleanRev]
      have h2 : ([dotdot] : List (List Char)) = List.replicate 1 dotdot := by simp
      rw [h1, h2, ih 1 ds hds]
    | succ m0 =>
      have hsm : List.replicate (m0 + 1) dotdot = dotdot :: List.replicate m0 dotdot := by
        simp [List.replicate_succ]
      rw [hsm]
      have h1 : cleanRev false (dotdot :: List.replicate m0 dotdot)
          (dotdot :: (List.replicate n dotdot ++ ds)) =
          cleanRev false (dotdot :: dotdot :: List.replicate m0 dotdot)
            (List.replicate n dotdot ++ ds) := by
        simp [cleanRev]
      have h2 : (dotdot :: dotdot :: List.replicate m0 dotdot) =
          List.replicate (m0 + 2) dotdot := by
        simp [List.replicate_succ]
      rw [h1, h2, ih (m0 + 2) ds hds]
      have h3 : n + (m0 + 2) = n + 1 + (m0 + 1) := by omega
      rw [h3]

lemma cleanComps_false_norm (k : ℕ) (ds : List (List Char)) (hds : dotdot ∉ ds) :
    cleanComps false (List.replicate k dotdot ++ ds) = List.replicate k dotdot ++ ds := by
  have h0 : ([] : List (List Char)) = List.replicate 0 dotdot := by simp
  unfold cleanComps
  rw [h0, cleanRev_dds k 0 ds hds]
  simp [List.reverse_append]

lemma cleanRev_pred (P : List Char → Prop) (hdd : P dotdot) (rooted : Bool) :
    ∀ (cs stack : List (List Char)), (∀ c ∈ stack, P c) → (∀ c ∈ cs, P c) →
      ∀ c ∈ cleanRev rooted stack cs, P c := by
  intro cs
  induction cs with
  | nil =>
    intro stack hs _ c hc
    exact hs c hc
  | cons a as ih =>
    intro stack hs hcs c hc
    have has : ∀ x ∈ as, P x := fun x hx => hcs x (List.mem_cons_of_mem a hx)
    by_cases hadd : a = dotdot
    · subst hadd
      cases stack with
      | nil =>
        simp only [cleanRev, if_pos rfl] at hc
        refine ih _ ?_ has c hc
        intro x hx
        split at hx
        · simp at hx
        · simp only [List.mem_singleton] at hx
          exact hx ▸ hdd
      | cons top rest =>
        by_cases htop : top = dotdot
        · subst htop
          simp only [cleanRev, if_pos rfl] at hc
          exact ih (dotdot :: dotdot :: rest) (by
            intro x hx
            rcases List.mem_cons.mp hx with h1 | h1
            · exact h1 ▸ hdd
            · exact hs x h1) has c hc
        · simp only [cleanRev, if_pos rfl, if_neg htop] at hc
          exact ih rest (fun x hx => hs x (List.mem_cons_of_mem top hx)) has c hc
    · simp only [cleanRev, if_neg hadd] at hc
      exact ih (a :: stack) (by
        intro x hx
        rcases List.mem_cons.mp hx with h1 | h1
        · exact h1 ▸ hcs a (List.mem_cons_self a as)
        · exact hs x h1) has c hc

lemma cleanComps_pred (P : List Char → Prop) (hdd : P dotdot) (rooted : Bool)
    (cs : List (List Char)) (hcs : ∀ c ∈ cs, P c) : ∀ c ∈ cleanComps rooted cs, P c := by
  intro c hc
  exact cleanRev_pred P hdd rooted cs [] (by simp) hcs c (List.mem_reverse.mp hc)

/-- A good component: non-empty, separator-free, not the single dot. -/
def GoodComp (c : List Char) : Prop := c ≠ [] ∧ '/' ∉ c ∧ c ≠ ['.']

lemma goodComp_dd : GoodComp dotdot := by
  refine ⟨by simp [dotdot], ?_, by simp [dotdot]⟩
  intro h
  simp [dotdot] at h

lemma pathComps_good (s : String) : ∀ c ∈ pathComps s, GoodComp c := by
  intro c hc
  refine cleanComps_pred GoodComp goodComp_dd _ _ ?_ c hc
  intro d hd
  simp only [filterComps, List.mem_filter] at hd
  obtain ⟨hmem, hcond⟩ := hd
  have h1 : d ≠ [] ∧ d ≠ ['.'] := by
    constructor <;> {
      intro hh
      subst hh
      simp at hcond
    }
  exact ⟨h1.1, splitSlash_no_slash _ d hmem, h1.2⟩

lemma filterComps_good (cs : List (List Char)) (h : ∀ c ∈ cs, GoodComp c) :
    filterComps cs = cs := by
  refine List.filter_eq_self.mpr ?_
  intro c hc
  obtain ⟨h1, _, h3⟩ := h c hc
  simp [h1, h3]

lemma joinSlash_head (c : List Char) (cs : List (List Char)) (hc : c ≠ []) :
    (joinSlash (c :: cs)).head? = c.head? := by
  cases cs with
  | nil => rfl
  | cons d ds =>
    have h1 : joinSlash (c :: d :: ds) = c ++ '/' :: joinSlash (d :: ds) := rfl
    rw [h1]
    cases c with
    | nil => exact absurd rfl hc
    | cons x xs => rfl

lemma pathRooted_render (rooted : Bool) (cs : List (List Char))
    (hgood : ∀ c ∈ cs, GoodComp c) : pathRooted (render rooted cs) = rooted := by
  cases hcs : cs with
  | nil =>
    cases rooted <;> simp [render, pathRooted]
  | cons c cs2 =>
    subst hcs
    have hgc : GoodComp c := hgood c (List.mem_cons_self c cs2)
    cases rooted with
    | true =>
      simp [render, pathRooted]
    | false =>
      have h1 : render false (c :: cs2) = ⟨joinSlash (c :: cs2)⟩ := by simp [render]
      rw [h1]
      have h2 : (String.mk (joinSlash (c :: cs2))).data = joinSlash (c :: cs2) := rfl
      unfold pathRooted
      rw [h2, joinSlash_head c cs2 hgc.1]
      cases c with
      | nil => exact absurd rfl hgc.1
      | cons x xs =>
        have hx : x ≠ '/' := fun hh => hgc.2.1 (hh ▸ List.mem_cons_self x xs)
        simp [hx]

lemma pathComps_render_true (cs : List (List Char)) (hgood : ∀ c ∈ cs, GoodComp c)
    (hdd : dotdot ∉ cs) : pathComps (render true cs) = cs := by
  cases hcs : cs with
  | nil => decide
  | cons c cs2 =>
    subst hcs
    have h1 : render true (c :: cs2) = ⟨'/' :: joinSlash (c :: cs2)⟩ := by simp [render]
    rw [h1]
    unfold pathComps
    have h2 : pathRooted ⟨'/' :: joinSlash (c :: cs2)⟩ = true := rfl
    have h3 : splitSlash ('/' :: joinSlash (c :: cs2)) = [] :: (c :: cs2) := by
      have hs : splitSlash ('/' :: joinSlash (c :: cs2)) =
          [] :: splitSlash (joinSlash (c :: cs2)) := by
        simp [splitSlash]
      rw [hs, splitSlash_join (c :: cs2) (by simp) (fun d hd => (hgood d hd).2.1)]
    have h4 : filterComps ([] :: (c :: cs2)) = c :: cs2 := by
      have : filterComps ([] :: (c :: cs2)) = filterComps (c :: cs2) := by
        simp [filterComps]
      rw [this, filterComps_good _ hgood]
    rw [h2, h3, h4]
    exact cleanComps_no_dd true _ hdd

lemma pathComps_render_false (cs : List (List Char)) (hgood : ∀ c ∈ cs, GoodComp c)
    (k : ℕ) (ds : List (List Char)) (hsplit : cs = List.replicate k dotdot ++ ds)
    (hds : dotdot ∉ ds) : pathComps (render false cs) = cs := by
  cases hcs : cs with
  | nil => decide
  | cons c cs2 =>
    subst hcs
    have h1 : render false (c :: cs2) = ⟨joinSlash (c :: cs2)⟩ := by simp [render]
    rw [h1]
    unfold pathComps
    have h2 : pathRooted ⟨joinSlash (c :: cs2)⟩ = false := by
      have := pathRooted_render false (c :: cs2) hgood
      rwa [h1] at this
    have h3 : splitSlash (joinSlash (c :: cs2)) = c :: cs2 :=
      splitSlash_join (c :: cs2) (by simp) (fun d hd => (hgood d hd).2.1)
    have h4 : (String.mk (joinSlash (c :: cs2))).data = joinSlash (c :: cs2) := rfl
    rw [h2, h4, h3, filterComps_good _ hgood, hsplit]
    exact cleanComps_false_norm k ds hds

lemma cleanRev_norm_false : ∀ (cs stack : List (List Char)),
    (∃ es k, stack = es ++ List.replicate k dotdot ∧ dotdot ∉ es) →
    ∃ es k, cleanRev false stack cs = es ++ List.replicate k dotdot ∧ dotdot ∉ es := by
  intro cs
  induction cs with
  | nil =>
    intro stack h
    simpa [cleanRev] using h
  | cons a as ih =>
    intro stack h
    by_cases hadd : a = dotdot
    · subst hadd
      cases stack with
      | nil =>
        simp only [cleanRev, if_pos rfl]
        refine ih _ ?_
        refine ⟨[], 1, ?_, by simp⟩
        split
        · simp_all
        · simp
      | cons top rest =>
        obtain ⟨es, k, hsk, hes⟩ := h
        by_cases htop : top = dotdot
        · subst htop
          have hes0 : es = [] := by
            cases es with
            | nil => rfl
            | cons e es2 =>
              exfalso
              have : e = dotdot := by
                have := congrArg List.head? hsk
                simp at this
                exact this.symm
              exact hes (this ▸ List.mem_cons_self e es2)
          simp only [cleanRev, if_pos rfl]
          refine ih _ ⟨[], k + 1, ?_, by simp⟩
          rw [hsk, hes0]
          simp [List.replicate_succ]
        · simp only [cleanRev, if_pos rfl, if_neg htop]
          cases es with
          | nil =>
            exfalso
            cases k with
            | zero => simp at hsk
            | succ k2 =>
              have : top = dotdot := by
                have := congrArg List.head? hsk
                simp [List.replicate_succ] at this
                exact this
              exact htop this
          | cons e es2 =>
            have he : top = e ∧ rest = es2 ++ List.replicate k dotdot := by
              rw [List.cons_append] at hsk
              exact ⟨by injection hsk, by injection hsk with _ h2⟩
            refine ih _ ⟨es2, k, he.2, fun hh => hes (List.mem_cons_of_mem e hh)⟩
    · simp only [cleanRev, if_neg hadd]
      obtain ⟨es, k, hsk, hes⟩ := h
      refine ih _ ⟨a :: es, k, by rw [hsk, List.cons_append], ?_⟩
      intro hh
      rcases List.mem_cons.mp hh with h1 | h1
      · exact hadd h1.symm
      · exact hes h1

lemma pathComps_norm (s : String) (h : pathRooted s = false) :
    ∃ k ds, pathComps s = List.replicate k dotdot ++ ds ∧ dotdot ∉ ds := by
  unfold pathComps
  rw [h]
  unfold cleanComps
  obtain ⟨es, k, heq, hes⟩ :=
    cleanRev_norm_false (filterComps (splitSlash s.data)) [] ⟨[], 0, by simp, by simp⟩
  rw [heq]
  refine ⟨k, es.reverse, ?_, by simpa using hes⟩
  simp [List.reverse_append]

lemma goIsAbs_goClean (s : String) : goIsAbs (goClean s) = goIsAbs s :=
  pathRooted_render (pathRooted s) (pathComps s) (pathComps_good s)

lemma pathComps_goClean (s : String) : pathComps (goClean s) = pathComps s := by
  unfold goClean
  cases hr : pathRooted s with
  | true =>
    refine pathComps_render_true _ (pathComps_good s) ?_
    rw [show pathComps s = cleanComps true (filterComps (splitSlash s.data)) by
      unfold pathComps; rw [hr]]
    exact cleanComps_rooted_no_dd _
  | false =>
    obtain ⟨k, ds, hsp, hds⟩ := pathComps_norm s hr
    exact pathComps_render_false _ (pathComps_good s) k ds hsp hds

lemma goClean_idem (s : String) : goClean (goClean s) = goClean s := by
  conv_lhs => rw [show goClean (goClean s) =
    render (pathRooted (goClean s)) (pathComps (goClean s)) from rfl]
  rw [pathComps_goClean, show pathRooted (goClean s) = goIsAbs (goClean s) from rfl,
    goIsAbs_goClean]
  rfl

lemma dropCommon_spec : ∀ as bs : List (List Char),
    ∃ common, as = common ++ (dropCommon as bs).1 ∧ bs = common ++ (dropCommon as bs).2 := by
  intro as
  induction as with
  | nil =>
    intro bs
    exact ⟨[], rfl, rfl⟩
  | cons a as2 ih =>
    intro bs
    cases bs with
    | nil => exact ⟨[], rfl, rfl⟩
    | cons b bs2 =>
      by_cases hab : a = b
      · subst hab
        obtain ⟨common, h1, h2⟩ := ih bs2
        have hstep : dropCommon (a :: as2) (a :: bs2) = dropCommon as2 bs2 := by
          simp [dropCommon]
        refine ⟨a :: common, ?_, ?_⟩
        · rw [hstep, List.cons_append, ← h1]
        · rw [hstep, List.cons_append, ← h2]
      · refine ⟨[], ?_, ?_⟩ <;> simp [dropCommon, if_neg hab]

lemma dropCommon_pre : ∀ (as ts : List (List Char)), dropCommon as (as ++ ts) = ([], ts) := by
  intro as ts
  induction as with
  | nil => rfl
  | cons a as2 ih => simp [dropCommon, ih]

lemma compIsPre_refl : ∀ as : List (List Char), compIsPre as as = true := by
  intro as
  induction as with
  | nil => rfl
  | cons a as2 ih => simp [compIsPre, ih]

lemma compIsPre_append : ∀ as bs : List (List Char), compIsPre as (as ++ bs) = true := by
  intro as bs
  induction as with
  | nil => rfl
  | cons a as2 ih => simp [compIsPre, ih]

lemma compIsPre_exists : ∀ as bs : List (List Char), compIsPre as bs = true →
    ∃ ts, bs = as ++ ts := by
  intro as
  induction as with
  | nil =>
    intro bs _
    exact ⟨bs, rfl⟩
  | cons a as2 ih =>
    intro bs h
    cases bs with
    | nil => simp [compIsPre] at h
    | cons b bs2 =>
      simp only [compIsPre, Bool.and_eq_true, beq_iff_eq] at h
      obtain ⟨ts, hts⟩ := ih bs2 h.2
      exact ⟨ts, by rw [h.1, hts, List.cons_append]⟩

lemma listHasPre_append_self : ∀ a t : List Char, listHasPre (a ++ t) a = true := by
  intro a t
  induction a with
  | nil => cases t <;> rfl
  | cons c cs ih => simp [listHasPre, ih]

lemma strStarts_render_dd (rest : List (List Char)) :
    strStarts (render false (dotdot :: rest)) ".." = true := by
  have h1 : render false (dotdot :: rest) = ⟨joinSlash (dotdot :: rest)⟩ := by simp [render]
  rw [h1]
  have h2 : (".." : String).data = dotdot := rfl
  unfold strStarts
  rw [h2]
  cases rest with
  | nil =>
    have : joinSlash [dotdot] = dotdot := rfl
    rw [this, show dotdot = dotdot ++ [] by simp]
    exact listHasPre_append_self dotdot []
  | cons d ds =>
    have : joinSlash (dotdot :: d :: ds) = dotdot ++ '/' :: joinSlash (d :: ds) := rfl
    rw [this]
    exact listHasPre_append_self dotdot _

lemma goRel_inside_split (base targ rel : String) (hgr : goRel base targ = some rel)
    (ho : relOutside (some rel) = false) :
    (goClean base = goClean targ ∧ rel = ".")
    ∨ (goClean base ≠ goClean targ
       ∧ goIsAbs (goClean base) = goIsAbs (goClean targ)
       ∧ (dropCommon (pathComps base) (pathComps targ)).1 = []
       ∧ (dropCommon (pathComps base) (pathComps targ)).2 ≠ []
       ∧ rel = render false (dropCommon (pathComps base) (pathComps targ)).2) := by
  by_cases h1 : goClean base = goClean targ
  · left
    refine ⟨h1, ?_⟩
    unfold goRel at hgr
    rw [if_pos h1] at hgr
    exact (Option.some_injective _ hgr).symm
  · right
    unfold goRel at hgr
    rw [if_neg h1] at hgr
    by_cases h2 : (goIsAbs (goClean base) != goIsAbs (goClean targ)) = true
    · rw [if_pos h2] at hgr
      exact absurd hgr (by simp)
    · rw [if_neg h2] at hgr
      have habs : goIsAbs (goClean base) = goIsAbs (goClean targ) := by
        have := (Bool.not_eq_true _).mp h2
        simpa [bne_eq_false_iff_eq] using this
      by_cases h3 : ((dropCommon (pathComps base) (pathComps targ)).1.head? == some dotdot)
          = true
      · rw [if_pos h3] at hgr
        exact absurd hgr (by simp)
      · rw [if_neg h3] at hgr
        have hrel : rel = render false
            (List.replicate (dropCommon (pathComps base) (pathComps targ)).1.length dotdot
              ++ (dropCommon (pathComps base) (pathComps targ)).2) :=
          (Option.some_injective _ hgr).symm
        have hpr1 : (dropCommon (pathComps base) (pathComps targ)).1 = [] := by
          by_contra hne1
          obtain ⟨c, cs, hcc⟩ := List.exists_cons_of_ne_nil hne1
          have hstart : strStarts rel ".." = true := by
            rw [hrel, hcc]
            have hrw : List.replicate (c :: cs).length dotdot
                ++ (dropCommon (pathComps base) (pathComps targ)).2
                = dotdot :: (List.replicate cs.length dotdot
                  ++ (dropCommon (pathComps base) (pathComps targ)).2) := by
              simp [List.replicate_succ]
            rw [hrw]
            exact strStarts_render_dd _
          simp [relOutside, hstart] at ho
        refine ⟨h1, habs, hpr1, ?_, by
          rw [hrel, hpr1]
          simp only [List.length_nil, List.replicate_zero, List.nil_append]⟩
        intro hpr2
        obtain ⟨common, hc1, hc2⟩ := dropCommon_spec (pathComps base) (pathComps targ)
        rw [hpr1, List.append_nil] at hc1
        rw [hpr2, List.append_nil] at hc2
        have hcomps : pathComps base = pathComps targ := by rw [hc1, hc2]
        have hroots : pathRooted base = pathRooted targ := by
          have e1 : goIsAbs (goClean base) = pathRooted base := goIsAbs_goClean base
          have e2 : goIsAbs (goClean targ) = pathRooted targ := goIsAbs_goClean targ
          rw [e1, e2] at habs
          exact habs
        exact h1 (by unfold goClean; rw [hcomps, hroots])

/-- The importer's inside-root classification is sound for the semantic
descendant relation: a candidate classified inside really is the root or
below it. -/
lemma rootRelInside_underRoot (root cand : String) (hroot : goIsAbs root = true)
    (h : rootRelInside root cand = true) : underRoot root cand = true := by
  have hrel : relOutside (goRel root cand) = false := by
    simpa [rootRelInside] using h
  cases hgr : goRel root cand with
  | none =>
    rw [hgr] at hrel
    simp [relOutside] at hrel
  | some rel =>
    rw [hgr] at hrel
    rcases goRel_inside_split root cand rel hgr hrel with ⟨heq, _⟩ |
      ⟨_, habs, hpr1, _, _⟩
    · have h1 : goIsAbs cand = true := by
        have := congrArg goIsAbs heq
        rw [goIsAbs_goClean, goIsAbs_goClean] at this
        rw [← this]
        exact hroot
      have h2 : pathComps root = pathComps cand := by
        have := congrArg pathComps heq
        rwa [pathComps_goClean, pathComps_goClean] at this
      simp [underRoot, h1, h2, compIsPre_refl]
    · have h1 : goIsAbs cand = true := by
        rw [goIsAbs_goClean, goIsAbs_goClean] at habs
        rw [← habs]
        exact hroot
      obtain ⟨common, hc1, hc2⟩ := dropCommon_spec (pathComps root) (pathComps cand)
      rw [hpr1, List.append_nil] at hc1
      rw [hc1] at hc2
      unfold underRoot
      rw [h1, hc1, hc2, compIsPre_append]
      rfl

lemma string_data_ne_nil (s : String) (h : s ≠ "") : s.data ≠ [] := by
  intro hd
  apply h
  cases s with
  | mk data => exact congrArg String.mk hd

lemma goIsAbs_ne_empty (s : String) (h : goIsAbs s = true) : s ≠ "" := by
  intro hs
  subst hs
  simp [goIsAbs, pathRooted] at h

lemma head?_append_left (l m : List Char) (h : l ≠ []) : (l ++ m).head? = l.head? := by
  cases l with
  | nil => exact absurd rfl h
  | cons a as => rfl

lemma goJoin_pair (a b : String) (ha : a ≠ "") (hb : b ≠ "") :
    goJoin [a, b] = goClean ⟨a.data ++ '/' :: b.data⟩ := by
  unfold goJoin
  have h1 : [a, b].filter (fun e => e != "") = [a, b] := by simp [ha, hb]
  rw [h1]
  rfl

lemma goClean_dot_append (a : String) (ha : a ≠ "") :
    goClean ⟨a.data ++ '/' :: ['.']⟩ = goClean a := by
  have hd : a.data ≠ [] := string_data_ne_nil a ha
  have h1 : pathRooted ⟨a.data ++ '/' :: ['.']⟩ = pathRooted a := by
    unfold pathRooted
    rw [show (String.mk (a.data ++ '/' :: ['.'])).data = a.data ++ '/' :: ['.'] from rfl,
      head?_append_left _ _ hd]
  have h2 : pathComps ⟨a.data ++ '/' :: ['.']⟩ = pathComps a := by
    unfold pathComps
    rw [h1]
    congr 1
    rw [show (String.mk (a.data ++ '/' :: ['.'])).data = a.data ++ '/' :: ['.'] from rfl,
      splitSlash_append, show splitSlash ['.'] = [['.']] by decide]
    unfold filterComps
    rw [List.filter_append]
    simp
  unfold goClean
  rw [h1, h2]

lemma splitSlash_slash_cons (x : List Char) : splitSlash ('/' :: x) = [] :: splitSlash x := by
  simp [splitSlash]

lemma goClean_root_append (bs ts2 : List (List Char))
    (hgb : ∀ c ∈ bs, GoodComp c) (hgt : ∀ c ∈ ts2, GoodComp c)
    (hdb : dotdot ∉ bs) (hdt : dotdot ∉ ts2) (hts : ts2 ≠ []) :
    goClean ⟨(render true bs).data ++ '/' :: joinSlash ts2⟩ = render true (bs ++ ts2) := by
  obtain ⟨t, ts3, hteq⟩ := List.exists_cons_of_ne_nil hts
  cases bs with
  | nil =>
    have hdat : (render true ([] : List (List Char))).data = ['/'] := rfl
    rw [hdat]
    have hfull : (['/'] ++ '/' :: joinSlash ts2) = '/' :: '/' :: joinSlash ts2 := rfl
    rw [hfull]
    have hr : pathRooted ⟨'/' :: '/' :: joinSlash ts2⟩ = true := rfl
    have hsp : splitSlash ('/' :: '/' :: joinSlash ts2) = [] :: [] :: ts2 := by
      rw [splitSlash_slash_cons, splitSlash_slash_cons,
        splitSlash_join ts2 hts (fun d hd => (hgt d hd).2.1)]
    have hcomp : pathComps ⟨'/' :: '/' :: joinSlash ts2⟩ = ts2 := by
      unfold pathComps
      rw [hr, show (String.mk ('/' :: '/' :: joinSlash ts2)).data =
        '/' :: '/' :: joinSlash ts2 from rfl, hsp]
      have hf : filterComps ([] :: [] :: ts2) = ts2 := by
        have : filterComps ([] :: [] :: ts2) = filterComps ts2 := by simp [filterComps]
        rw [this, filterComps_good _ hgt]
      rw [hf]
      exact cleanComps_no_dd true ts2 hdt
    unfold goClean
    rw [hr, hcomp, List.nil_append]
  | cons b bs2 =>
    have hdat : (render true (b :: bs2)).data = '/' :: joinSlash (b :: bs2) := by
      simp [render]
    rw [hdat]
    have hfull : (('/' :: joinSlash (b :: bs2)) ++ '/' :: joinSlash ts2)
        = '/' :: joinSlash ((b :: bs2) ++ ts2) := by
      rw [joinSlash_append (b :: bs2) ts2 (by simp) hts]
      rfl
    rw [hfull]
    have hgall : ∀ c ∈ (b :: bs2) ++ ts2, GoodComp c := by
      intro c hc
      rcases List.mem_append.mp hc with h1 | h1
      · exact hgb c h1
      · exact hgt c h1
    have hr : pathRooted ⟨'/' :: joinSlash ((b :: bs2) ++ ts2)⟩ = true := rfl
    have hcomp : pathComps ⟨'/' :: joinSlash ((b :: bs2) ++ ts2)⟩ = (b :: bs2) ++ ts2 := by
      unfold pathComps
      rw [hr, show (String.mk ('/' :: joinSlash ((b :: bs2) ++ ts2))).data =
        '/' :: joinSlash ((b :: bs2) ++ ts2) from rfl, splitSlash_slash_cons,
        splitSlash_join _ (by simp) (fun d hd => (hgall d hd).2.1)]
      have hf : filterComps ([] :: ((b :: bs2) ++ ts2)) = (b :: bs2) ++ ts2 := by
        have : filterComps ([] :: ((b :: bs2) ++ ts2)) = filterComps ((b :: bs2) ++ ts2) := by
          simp [filterComps]
        rw [this, filterComps_good _ hgall]
      rw [hf]
      refine cleanComps_no_dd true _ ?_
      intro hc
      rcases List.mem_append.mp hc with h1 | h1
      · exact hdb h1
      · exact hdt h1
    unfold goClean
    rw [hr, hcomp]

/-- Joining the root with the inside-classified result of `filepath.Rel`
recovers the cleaned candidate: the path handed to the root handle
resolves to exactly the primary candidate. -/
lemma goJoin_rel_roundtrip (root cand rel : String)
    (hroot : goIsAbs root = true) (hrc : goClean root = root) (hcc : goClean cand = cand)
    (hgr : goRel root cand = some rel) (ho : relOutside (some rel) = false) :
    goJoin [root, rel] = cand := by
  have hrne : root ≠ "" := goIsAbs_ne_empty root hroot
  rcases goRel_inside_split root cand rel hgr ho with ⟨heq, hdot⟩ |
    ⟨hne, habs, hpr1, hpr2ne, hrelEq⟩
  · subst hdot
    rw [goJoin_pair root "." hrne (by decide),
      show ("." : String).data = ['.'] from rfl, goClean_dot_append root hrne, hrc]
    rw [hrc, hcc] at heq
    exact heq
  · obtain ⟨ts2, hts2⟩ : ∃ t, (dropCommon (pathComps root) (pathComps cand)).2 = t :=
      ⟨_, rfl⟩
    rw [hts2] at hrelEq hpr2ne
    obtain ⟨common, hc1, hc2⟩ := dropCommon_spec (pathComps root) (pathComps cand)
    rw [hpr1, List.append_nil] at hc1
    rw [hts2, ← hc1] at hc2
    have hcandAbs : goIsAbs cand = true := by
      rw [goIsAbs_goClean, goIsAbs_goClean] at habs
      rw [← habs]
      exact hroot
    have hgroot : ∀ c ∈ pathComps root, GoodComp c := pathComps_good root
    have hgt : ∀ c ∈ ts2, GoodComp c := by
      intro c hc
      exact pathComps_good cand c (hc2 ▸ List.mem_append_right _ hc)
    have hddcand : dotdot ∉ pathComps cand := by
      have hpc : pathComps cand = cleanComps true (filterComps (splitSlash cand.data)) := by
        unfold pathComps
        rw [show pathRooted cand = goIsAbs cand from rfl, hcandAbs]
      rw [hpc]
      exact cleanComps_rooted_no_dd _
    have hddroot : dotdot ∉ pathComps root := by
      have hpc : pathComps root = cleanComps true (filterComps (splitSlash root.data)) := by
        unfold pathComps
        rw [show pathRooted root = goIsAbs root from rfl, hroot]
      rw [hpc]
      exact cleanComps_rooted_no_dd _
    have hddt : dotdot ∉ ts2 := fun hc => hddcand (hc2 ▸ List.mem_append_right _ hc)
    have hrelRender : rel = ⟨joinSlash ts2⟩ := by
      rw [hrelEq]
      simp [render, hpr2ne]
    have hrelne : rel ≠ "" := by
      rw [hrelRender]
      intro hh
      obtain ⟨t, ts3, hteq⟩ := List.exists_cons_of_ne_nil hpr2ne
      have hjn : joinSlash ts2 ≠ [] := by
        rw [hteq]
        exact joinSlash_ne_nil t ts3 (hgt t (hteq ▸ List.mem_cons_self t ts3)).1
      exact hjn (by
        have := congrArg String.data hh
        simpa using this)
    have hrr : render true (pathComps root) = root := by
      conv_rhs => rw [← hrc]
      unfold goClean
      rw [show pathRooted root = goIsAbs root from rfl, hroot]
    rw [goJoin_pair root rel hrne hrelne, hrelRender,
      show (String.mk (joinSlash ts2)).data = joinSlash ts2 from rfl, ← hrr,
      goClean_root_append (pathComps root) ts2 hgroot hgt hddroot hddt hpr2ne]
    conv_rhs => rw [← hcc]
    unfold goClean
    rw [show pathRooted cand = goIsAbs cand from rfl, hcandAbs, hc2]

/-! Importer-level support lemmas. -/

lemma cacheLookup_store_ne (c : List (String × CacheEntry)) (a k : String) (e2 : CacheEntry)
    (hne : a ≠ k) : cacheLookup ((a, e2) :: c) k = cacheLookup c k := by
  simp [cacheLookup, hne]

lemma tryAbsPath_state (st : Importer) (fs : FS) (a r : String) :
    (tryAbsPath st fs a r).2.rootAbsPath = st.rootAbsPath
    ∧ (tryAbsPath st fs a r).2.closed = st.closed
    ∧ (tryAbsPath st fs a r).2.JPaths = st.JPaths := by
  unfold tryAbsPath
  cases hl : cacheLookup st.fsCache a with
  | some entry =>
    cases entry <;> exact ⟨rfl, rfl, rfl⟩
  | none =>
    cases ho : osRootOpen fs st.rootAbsPath st.closed r <;> exact ⟨rfl, rfl, rfl⟩

lemma tryAbsPath_mono (st : Importer) (fs : FS) (a r k : String) (e : CacheEntry)
    (h : cacheLookup st.fsCache k = some e) :
    cacheLookup (tryAbsPath st fs a r).2.fsCache k = some e := by
  unfold tryAbsPath
  cases hl : cacheLookup st.fsCache a with
  | some entry =>
    cases entry <;> exact h
  | none =>
    have hak : a ≠ k := by
      intro hh
      subst hh
      rw [hl] at h
      simp at h
    cases ho : osRootOpen fs st.rootAbsPath st.closed r with
    | ok d =>
      show cacheLookup ((a, CacheEntry.found d a) :: st.fsCache) k = some e
      rw [cacheLookup_store_ne _ _ _ _ hak]
      exact h
    | notExist =>
      show cacheLookup ((a, CacheEntry.notExist) :: st.fsCache) k = some e
      rw [cacheLookup_store_ne _ _ _ _ hak]
      exact h
    | escapeErr => exact h
    | closedErr => exact h

lemma tryAbsPath_of_cached_found (st : Importer) (fs : FS) (a r c f : String)
    (h : cacheLookup st.fsCache a = some (.found c f)) :
    tryAbsPath st fs a r = (.found c f, st) := by
  unfold tryAbsPath
  rw [h]

lemma tryAbsPath_of_cached_notExist (st : Importer) (fs : FS) (a r : String)
    (h : cacheLookup st.fsCache a = some .notExist) :
    tryAbsPath st fs a r = (.notFound, st) := by
  unfold tryAbsPath
  rw [h]

lemma tryAbsPath_miss_ok (st : Importer) (fs : FS) (a r d : String)
    (hl : cacheLookup st.fsCache a = none)
    (ho : osRootOpen fs st.rootAbsPath st.closed r = .ok d) :
    tryAbsPath st fs a r =
      (.found d a, { st with fsCache := (a, .found d a) :: st.fsCache }) := by
  unfold tryAbsPath
  rw [hl, ho]

lemma tryAbsPath_miss_notExist (st : Importer) (fs : FS) (a r : String)
    (hl : cacheLookup st.fsCache a = none)
    (ho : osRootOpen fs st.rootAbsPath st.closed r = .notExist) :
    tryAbsPath st fs a r = (.notFound, { st with fsCache := (a, .notExist) :: st.fsCache }) := by
  unfold tryAbsPath
  rw [hl, ho]

lemma tryAbsPath_miss_escape (st : Importer) (fs : FS) (a r : String)
    (hl : cacheLookup st.fsCache a = none)
    (ho : osRootOpen fs st.rootAbsPath st.closed r = .escapeErr) :
    tryAbsPath st fs a r = (.failed .readFile, st) := by
  unfold tryAbsPath
  rw [hl, ho]

lemma tryAbsPath_miss_closed (st : Importer) (fs : FS) (a r : String)
    (hl : cacheLookup st.fsCache a = none)
    (ho : osRootOpen fs st.rootAbsPath st.closed r = .closedErr) :
    tryAbsPath st fs a r = (.failed .readFile, st) := by
  unfold tryAbsPath
  rw [hl, ho]

lemma tryAbsPath_found_cached (st : Importer) (fs : FS) (a r c f : String)
    (h : (tryAbsPath st fs a r).1 = .found c f) :
    cacheLookup (tryAbsPath st fs a r).2.fsCache a = some (.found c f) := by
  cases hl : cacheLookup st.fsCache a with
  | some entry =>
    cases entry with
    | found c0 f0 =>
      rw [tryAbsPath_of_cached_found st fs a r c0 f0 hl] at h ⊢
      replace h : TryResult.found c0 f0 = TryResult.found c f := h
      simp only [TryResult.found.injEq] at h
      show cacheLookup st.fsCache a = some (.found c f)
      rw [hl, h.1, h.2]
    | notExist =>
      rw [tryAbsPath_of_cached_notExist st fs a r hl] at h
      replace h : TryResult.notFound = TryResult.found c f := h
      exact TryResult.noConfusion h
  | none =>
    cases ho : osRootOpen fs st.rootAbsPath st.closed r with
    | ok d =>
      rw [tryAbsPath_miss_ok st fs a r d hl ho] at h ⊢
      replace h : TryResult.found d a = TryResult.found c f := h
      simp only [TryResult.found.injEq] at h
      show cacheLookup ((a, CacheEntry.found d a) :: st.fsCache) a = some (.found c f)
      simp [cacheLookup, h.1, h.2]
    | notExist =>
      rw [tryAbsPath_miss_notExist st fs a r hl ho] at h
      replace h : TryResult.notFound = TryResult.found c f := h
      exact TryResult.noConfusion h
    | escapeErr =>
      rw [tryAbsPath_miss_escape st fs a r hl ho] at h
      replace h : TryResult.failed .readFile = TryResult.found c f := h
      exact TryResult.noConfusion h
    | closedErr =>
      rw [tryAbsPath_miss_closed st fs a r hl ho] at h
      replace h : TryResult.failed .readFile = TryResult.found c f := h
      exact TryResult.noConfusion h

lemma tryAbsPath_notFound_cached (st : Importer) (fs : FS) (a r : String)
    (h : (tryAbsPath st fs a r).1 = .notFound) :
    cacheLookup (tryAbsPath st fs a r).2.fsCache a = some .notExist := by
  cases hl : cacheLookup st.fsCache a with
  | some entry =>
    cases entry with
    | found c0 f0 =>
      rw [tryAbsPath_of_cached_found st fs a r c0 f0 hl] at h
      replace h : TryResult.found c0 f0 = TryResult.notFound := h
      exact TryResult.noConfusion h
    | notExist =>
      rw [tryAbsPath_of_cached_notExist st fs a r hl]
      exact hl
  | none =>
    cases ho : osRootOpen fs st.rootAbsPath st.closed r with
    | ok d =>
      rw [tryAbsPath_miss_ok st fs a r d hl ho] at h
      replace h : TryResult.found d a = TryResult.notFound := h
      exact TryResult.noConfusion h
    | notExist =>
      rw [tryAbsPath_miss_notExist st fs a r hl ho]
      show cacheLookup ((a, CacheEntry.notExist) :: st.fsCache) a = some CacheEntry.notExist
      simp [cacheLookup]
    | escapeErr =>
      rw [tryAbsPath_miss_escape st fs a r hl ho] at h
      replace h : TryResult.failed .readFile = TryResult.notFound := h
      exact TryResult.noConfusion h
    | closedErr =>
      rw [tryAbsPath_miss_closed st fs a r hl ho] at h
      replace h : TryResult.failed .readFile = TryResult.notFound := h
      exact TryResult.noConfusion h

lemma ne_true_of_false {b : Bool} (h : b = false) : ¬(b = true) := by
  rw [h]
  exact Bool.false_ne_true

lemma sjLoop_nil (fs : FS) (p : String) (st : Importer) :
    sjLoop fs p st [] = (⟨"", "", some .fileNotFound⟩, st) := rfl

lemma sjLoop_cons_none (fs : FS) (p : String) (st : Importer) (jp : String)
    (rest : List String)
    (hgr : goRel st.rootAbsPath (goClean (goJoin [st.rootAbsPath, jp, p])) = none) :
    sjLoop fs p st (jp :: rest) = sjLoop fs p st rest := by
  conv_lhs => unfold sjLoop
  rw [hgr]

lemma sjLoop_cons_out (fs : FS) (p : String) (st : Importer) (jp : String)
    (rest : List String) (rel : String)
    (hgr : goRel st.rootAbsPath (goClean (goJoin [st.rootAbsPath, jp, p])) = some rel)
    (hout : (strStarts rel ".." || (strStarts rel "/" && rel != ".")) = true) :
    sjLoop fs p st (jp :: rest) = sjLoop fs p st rest := by
  conv_lhs => unfold sjLoop
  rw [hgr]
  dsimp only
  rw [if_pos hout]

lemma sjLoop_cons_found (fs : FS) (p : String) (st st2 : Importer) (jp : String)
    (rest : List String) (rel c f : String)
    (hgr : goRel st.rootAbsPath (goClean (goJoin [st.rootAbsPath, jp, p])) = some rel)
    (hout : (strStarts rel ".." || (strStarts rel "/" && rel != ".")) = false)
    (htry : tryAbsPath st fs (goClean (goJoin [st.rootAbsPath, jp, p])) rel
      = (.found c f, st2)) :
    sjLoop fs p st (jp :: rest) = (⟨c, f, none⟩, st2) := by
  conv_lhs => unfold sjLoop
  rw [hgr]
  dsimp only
  rw [if_neg (ne_true_of_false hout), htry]

lemma sjLoop_cons_notFound (fs : FS) (p : String) (st st2 : Importer) (jp : String)
    (rest : List String) (rel : String)
    (hgr : goRel st.rootAbsPath (goClean (goJoin [st.rootAbsPath, jp, p])) = some rel)
    (hout : (strStarts rel ".." || (strStarts rel "/" && rel != ".")) = false)
    (htry : tryAbsPath st fs (goClean (goJoin [st.rootAbsPath, jp, p])) rel
      = (.notFound, st2)) :
    sjLoop fs p st (jp :: rest) = sjLoop fs p st2 rest := by
  conv_lhs => unfold sjLoop
  rw [hgr]
  dsimp only
  rw [if_neg (ne_true_of_false hout), htry]

lemma sjLoop_cons_failed (fs : FS) (p : String) (st st2 : Importer) (jp : String)
    (rest : List String) (rel : String) (e : ImpError)
    (hgr : goRel st.rootAbsPath (goClean (goJoin [st.rootAbsPath, jp, p])) = some rel)
    (hout : (strStarts rel ".." || (strStarts rel "/" && rel != ".")) = false)
    (htry : tryAbsPath st fs (goClean (goJoin [st.rootAbsPath, jp, p])) rel
      = (.failed e, st2)) :
    sjLoop fs p st (jp :: rest) = (⟨"", "", some e⟩, st2) := by
  conv_lhs => unfold sjLoop
  rw [hgr]
  dsimp only
  rw [if_neg (ne_true_of_false hout), htry]

lemma tryPrimaryImport_none (st : Importer) (fs : FS) (cwd f p : String)
    (hgr : goRel st.rootAbsPath (resolveImportPath cwd f p).1 = none) :
    tryPrimaryImport st fs cwd f p = primaryReject st (resolveImportPath cwd f p).2 f := by
  conv_lhs => unfold tryPrimaryImport
  rw [hgr]

lemma tryPrimaryImport_out (st : Importer) (fs : FS) (cwd f p rel : String)
    (hgr : goRel st.rootAbsPath (resolveImportPath cwd f p).1 = some rel)
    (hout : (strStarts rel ".." || (strStarts rel "/" && rel != ".")) = true) :
    tryPrimaryImport st fs cwd f p = primaryReject st (resolveImportPath cwd f p).2 f := by
  conv_lhs => unfold tryPrimaryImport
  rw [hgr]
  dsimp only
  rw [if_pos hout]

lemma tryPrimaryImport_in (st : Importer) (fs : FS) (cwd f p rel : String)
    (hgr : goRel st.rootAbsPath (resolveImportPath cwd f p).1 = some rel)
    (hout : (strStarts rel ".." || (strStarts rel "/" && rel != ".")) = false) :
    tryPrimaryImport st fs cwd f p = tryAbsPath st fs (resolveImportPath cwd f p).1 rel := by
  conv_lhs => unfold tryPrimaryImport
  rw [hgr]
  dsimp only
  rw [if_neg (ne_true_of_false hout)]

lemma Import_nullPath (st : Importer) (fs : FS) (cwd f p : String)
    (h : containsNull p = true) :
    Import st fs cwd f p = (⟨"", "", some .invalidNullByte⟩, st) := by
  unfold Import
  rw [if_pos h]

lemma Import_nullFrom (st : Importer) (fs : FS) (cwd f p : String)
    (hp : containsNull p = false) (hf : containsNull f = true) :
    Import st fs cwd f p = (⟨"", "", some .invalidNullByte⟩, st) := by
  unfold Import
  rw [if_neg (ne_true_of_false hp), if_pos hf]

lemma Import_primary_found (st st2 : Importer) (fs : FS) (cwd f p c f2 : String)
    (hp : containsNull p = false) (hf : containsNull f = false)
    (htp : tryPrimaryImport st fs cwd f p = (.found c f2, st2)) :
    Import st fs cwd f p = (⟨c, f2, none⟩, st2) := by
  conv_lhs => unfold Import
  rw [if_neg (ne_true_of_false hp), if_neg (ne_true_of_false hf), htp]

lemma Import_primary_failed (st st2 : Importer) (fs : FS) (cwd f p : String) (e : ImpError)
    (hp : containsNull p = false) (hf : containsNull f = false)
    (htp : tryPrimaryImport st fs cwd f p = (.failed e, st2)) :
    Import st fs cwd f p = (⟨"", "", some e⟩, st2) := by
  conv_lhs => unfold Import
  rw [if_neg (ne_true_of_false hp), if_neg (ne_true_of_false hf), htp]

lemma Import_primary_notFound (st st2 : Importer) (fs : FS) (cwd f p : String)
    (hp : containsNull p = false) (hf : containsNull f = false)
    (htp : tryPrimaryImport st fs cwd f p = (.notFound, st2)) :
    Import st fs cwd f p = searchJPaths st2 fs f p := by
  conv_lhs => unfold Import
  rw [if_neg (ne_true_of_false hp), if_neg (ne_true_of_false hf), htp]

lemma primaryReject_snd (st : Importer) (b : Bool) (f : String) :
    (primaryReject st b f).2 = st := by
  unfold primaryReject
  split
  · rfl
  · split <;> rfl

lemma primaryReject_fst_ne_found (st : Importer) (b : Bool) (f c f2 : String) :
    (primaryReject st b f).1 ≠ .found c f2 := by
  unfold primaryReject
  split
  · simp
  · split <;> simp

lemma primaryReject_notFound_any (st : Importer) (b : Bool) (f : String)
    (h : (primaryReject st b f).1 = .notFound) (st0 : Importer) :
    primaryReject st0 b f = (.notFound, st0) := by
  cases b with
  | true =>
    replace h : TryResult.failed .forbiddenAbsolutePath = TryResult.notFound := h
    exact TryResult.noConfusion h
  | false =>
    cases hc : (f != "") with
    | true =>
      replace h : (if (f != "") = true then
          ((TryResult.failed .forbiddenRelativePathTraversal, st) : TryResult × Importer)
        else (.notFound, st)).1 = TryResult.notFound := h
      rw [if_pos hc] at h
      replace h : TryResult.failed .forbiddenRelativePathTraversal = TryResult.notFound := h
      exact TryResult.noConfusion h
    | false =>
      show (if (f != "") = true then
          ((TryResult.failed .forbiddenRelativePathTraversal, st0) : TryResult × Importer)
        else (.notFound, st0)) = (.notFound, st0)
      rw [if_neg (ne_true_of_false hc)]

lemma searchJPaths_def (st : Importer) (fs : FS) (f p : String) :
    searchJPaths st fs f p =
      sjLoop fs p st (if f = "" then ensureDotInSearchPaths st.JPaths else st.JPaths) := rfl

lemma sjLoop_state (fs : FS) (p : String) : ∀ (l : List String) (st : Importer),
    (sjLoop fs p st l).2.rootAbsPath = st.rootAbsPath
    ∧ (sjLoop fs p st l).2.closed = st.closed
    ∧ (sjLoop fs p st l).2.JPaths = st.JPaths := by
  intro l
  induction l with
  | nil =>
    intro st
    exact ⟨rfl, rfl, rfl⟩
  | cons jp rest ih =>
    intro st
    cases hgr : goRel st.rootAbsPath (goClean (goJoin [st.rootAbsPath, jp, p])) with
    | none =>
      rw [sjLoop_cons_none fs p st jp rest hgr]
      exact ih st
    | some rel =>
      cases hc : (strStarts rel ".." || (strStarts rel "/" && rel != ".")) with
      | true =>
        rw [sjLoop_cons_out fs p st jp rest rel hgr hc]
        exact ih st
      | false =>
        rcases htry : tryAbsPath st fs (goClean (goJoin [st.rootAbsPath, jp, p])) rel
          with ⟨tr, st2⟩
        have hs := tryAbsPath_state st fs (goClean (goJoin [st.rootAbsPath, jp, p])) rel
        rw [htry] at hs
        cases tr with
        | found c f =>
          rw [sjLoop_cons_found fs p st st2 jp rest rel c f hgr hc htry]
          exact hs
        | notFound =>
          rw [sjLoop_cons_notFound fs p st st2 jp rest rel hgr hc htry]
          have ih2 := ih st2
          exact ⟨ih2.1.trans hs.1, ih2.2.1.trans hs.2.1, ih2.2.2.trans hs.2.2⟩
        | failed e =>
          rw [sjLoop_cons_failed fs p st st2 jp rest rel e hgr hc htry]
          exact hs

lemma sjLoop_mono (fs : FS) (p k : String) (e : CacheEntry) :
    ∀ (l : List String) (st : Importer), cacheLookup st.fsCache k = some e →
      cacheLookup (sjLoop fs p st l).2.fsCache k = some e := by
  intro l
  induction l with
  | nil =>
    intro st h
    exact h
  | cons jp rest ih =>
    intro st h
    cases hgr : goRel st.rootAbsPath (goClean (goJoin [st.rootAbsPath, jp, p])) with
    | none =>
      rw [sjLoop_cons_none fs p st jp rest hgr]
      exact ih st h
    | some rel =>
      cases hc : (strStarts rel ".." || (strStarts rel "/" && rel != ".")) with
      | true =>
        rw [sjLoop_cons_out fs p st jp rest rel hgr hc]
        exact ih st h
      | false =>
        rcases htry : tryAbsPath st fs (goClean (goJoin [st.rootAbsPath, jp, p])) rel
          with ⟨tr, st2⟩
        have hm := tryAbsPath_mono st fs (goClean (goJoin [st.rootAbsPath, jp, p])) rel k e h
        rw [htry] at hm
        cases tr with
        | found c f =>
          rw [sjLoop_cons_found fs p st st2 jp rest rel c f hgr hc htry]
          exact hm
        | notFound =>
          rw [sjLoop_cons_notFound fs p st st2 jp rest rel hgr hc htry]
          exact ih st2 hm
        | failed e2 =>
          rw [sjLoop_cons_failed fs p st st2 jp rest rel e2 hgr hc htry]
          exact hm

lemma sjLoop_err_shape (fs : FS) (p : String) : ∀ (l : List String) (st : Importer),
    (sjLoop fs p st l).1.err ≠ none →
      (sjLoop fs p st l).1.contents = "" ∧ (sjLoop fs p st l).1.foundAt = "" := by
  intro l
  induction l with
  | nil =>
    intro st _
    exact ⟨rfl, rfl⟩
  | cons jp rest ih =>
    intro st herr
    cases hgr : goRel st.rootAbsPath (goClean (goJoin [st.rootAbsPath, jp, p])) with
    | none =>
      rw [sjLoop_cons_none fs p st jp rest hgr] at herr ⊢
      exact ih st herr
    | some rel =>
      cases hc : (strStarts rel ".." || (strStarts rel "/" && rel != ".")) with
      | true =>
        rw [sjLoop_cons_out fs p st jp rest rel hgr hc] at herr ⊢
        exact ih st herr
      | false =>
        rcases htry : tryAbsPath st fs (goClean (goJoin [st.rootAbsPath, jp, p])) rel
          with ⟨tr, st2⟩
        cases tr with
        | found c f =>
          rw [sjLoop_cons_found fs p st st2 jp rest rel c f hgr hc htry] at herr
          simp at herr
        | notFound =>
          rw [sjLoop_cons_notFound fs p st st2 jp rest rel hgr hc htry] at herr ⊢
          exact ih st2 herr
        | failed e =>
          rw [sjLoop_cons_failed fs p st st2 jp rest rel e hgr hc htry]
          exact ⟨rfl, rfl⟩

lemma sjLoop_replay (fs fs2 : FS) (p : String) : ∀ (l : List String) (st : Importer)
    (res : ImportResult) (st3 : Importer), sjLoop fs p st l = (res, st3) → res.err = none →
    sjLoop fs2 p st3 l = (res, st3) := by
  intro l
  induction l with
  | nil =>
    intro st res st3 h herr
    rw [sjLoop_nil] at h
    have hres : res = ⟨"", "", some .fileNotFound⟩ := (congrArg Prod.fst h).symm
    rw [hres] at herr
    simp at herr
  | cons jp rest ih =>
    intro st res st3 h herr
    have hroot3 : st3.rootAbsPath = st.rootAbsPath := by
      have hs := (sjLoop_state fs p (jp :: rest) st).1
      rw [h] at hs
      exact hs
    cases hgr : goRel st.rootAbsPath (goClean (goJoin [st.rootAbsPath, jp, p])) with
    | none =>
      rw [sjLoop_cons_none fs p st jp rest hgr] at h
      rw [sjLoop_cons_none fs2 p st3 jp rest (by rw [hroot3]; exact hgr)]
      exact ih st res st3 h herr
    | some rel =>
      cases hc : (strStarts rel ".." || (strStarts rel "/" && rel != ".")) with
      | true =>
        rw [sjLoop_cons_out fs p st jp rest rel hgr hc] at h
        rw [sjLoop_cons_out fs2 p st3 jp rest rel (by rw [hroot3]; exact hgr) hc]
        exact ih st res st3 h herr
      | false =>
        rcases htry : tryAbsPath st fs (goClean (goJoin [st.rootAbsPath, jp, p])) rel
          with ⟨tr, st2⟩
        cases tr with
        | found c f =>
          rw [sjLoop_cons_found fs p st st2 jp rest rel c f hgr hc htry] at h
          have hres : res = ⟨c, f, none⟩ := (congrArg Prod.fst h).symm
          have hst3 : st3 = st2 := (congrArg Prod.snd h).symm
          subst hst3
          have hcached := tryAbsPath_found_cached st fs
            (goClean (goJoin [st.rootAbsPath, jp, p])) rel c f (by rw [htry])
          rw [htry] at hcached
          rw [hres]
          refine sjLoop_cons_found fs2 p st3 st3 jp rest rel c f
            (by rw [hroot3]; exact hgr) hc ?_
          rw [hroot3]
          exact tryAbsPath_of_cached_found st3 fs2
            (goClean (goJoin [st.rootAbsPath, jp, p])) rel c f hcached
        | notFound =>
          rw [sjLoop_cons_notFound fs p st st2 jp rest rel hgr hc htry] at h
          have hcached := tryAbsPath_notFound_cached st fs
            (goClean (goJoin [st.rootAbsPath, jp, p])) rel (by rw [htry])
          rw [htry] at hcached
          have hmono := sjLoop_mono fs p (goClean (goJoin [st.rootAbsPath, jp, p]))
            CacheEntry.notExist rest st2 hcached
          rw [h] at hmono
          have hstep := sjLoop_cons_notFound fs2 p st3 st3 jp rest rel
            (by rw [hroot3]; exact hgr) hc (by
              rw [hroot3]
              exact tryAbsPath_of_cached_notExist st3 fs2
                (goClean (goJoin [st.rootAbsPath, jp, p])) rel hmono)
          rw [hstep]
          exact ih st2 res st3 h herr
        | failed e =>
          rw [sjLoop_cons_failed fs p st st2 jp rest rel e hgr hc htry] at h
          have hres : res = ⟨"", "", some e⟩ := (congrArg Prod.fst h).symm
          rw [hres] at herr
          simp at herr

lemma tryPrimaryImport_state (st : Importer) (fs : FS) (cwd f p : String) :
    (tryPrimaryImport st fs cwd f p).2.rootAbsPath = st.rootAbsPath
    ∧ (tryPrimaryImport st fs cwd f p).2.closed = st.closed
    ∧ (tryPrimaryImport st fs cwd f p).2.JPaths = st.JPaths := by
  cases hgr : goRel st.rootAbsPath (resolveImportPath cwd f p).1 with
  | none =>
    rw [tryPrimaryImport_none st fs cwd f p hgr, primaryReject_snd]
    exact ⟨rfl, rfl, rfl⟩
  | some rel =>
    cases hc : (strStarts rel ".." || (strStarts rel "/" && rel != ".")) with
    | true =>
      rw [tryPrimaryImport_out st fs cwd f p rel hgr hc, primaryReject_snd]
      exact ⟨rfl, rfl, rfl⟩
    | false =>
      rw [tryPrimaryImport_in st fs cwd f p rel hgr hc]
      exact tryAbsPath_state st fs (resolveImportPath cwd f p).1 rel

/-- A successful `Import` is replayable: repeating the identical request
on the resulting importer state returns the same triple and leaves the
state untouched, against any filesystem whatsoever — the repeat is
served entirely from the cache. -/
lemma Import_replay (st st3 : Importer) (fs fs2 : FS) (cwd f p : String)
    (res : ImportResult) (h : Import st fs cwd f p = (res, st3)) (herr : res.err = none) :
    Import st3 fs2 cwd f p = (res, st3) := by
  cases hnp : containsNull p with
  | true =>
    rw [Import_nullPath st fs cwd f p hnp] at h
    have hres : res = ⟨"", "", some .invalidNullByte⟩ := (congrArg Prod.fst h).symm
    rw [hres] at herr
    simp at herr
  | false =>
    cases hnf : containsNull f with
    | true =>
      rw [Import_nullFrom st fs cwd f p hnp hnf] at h
      have hres : res = ⟨"", "", some .invalidNullByte⟩ := (congrArg Prod.fst h).symm
      rw [hres] at herr
      simp at herr
    | false =>
      rcases htp : tryPrimaryImport st fs cwd f p with ⟨tr, st2⟩
      have hst2 := tryPrimaryImport_state st fs cwd f p
      rw [htp] at hst2
      cases tr with
      | failed e =>
        rw [Import_primary_failed st st2 fs cwd f p e hnp hnf htp] at h
        have hres : res = ⟨"", "", some e⟩ := (congrArg Prod.fst h).symm
        rw [hres] at herr
        simp at herr
      | found c f2 =>
        rw [Import_primary_found st st2 fs cwd f p c f2 hnp hnf htp] at h
        have hres : res = ⟨c, f2, none⟩ := (congrArg Prod.fst h).symm
        have hst3 : st3 = st2 := (congrArg Prod.snd h).symm
        subst hst3
        cases hgr : goRel st.rootAbsPath (resolveImportPath cwd f p).1 with
        | none =>
          rw [tryPrimaryImport_none st fs cwd f p hgr] at htp
          exact absurd (congrArg Prod.fst htp)
            (primaryReject_fst_ne_found st (resolveImportPath cwd f p).2 f c f2)
        | some rel =>
          cases hc : (strStarts rel ".." || (strStarts rel "/" && rel != ".")) with
          | true =>
            rw [tryPrimaryImport_out st fs cwd f p rel hgr hc] at htp
            exact absurd (congrArg Prod.fst htp)
              (primaryReject_fst_ne_found st (resolveImportPath cwd f p).2 f c f2)
          | false =>
            rw [tryPrimaryImport_in st fs cwd f p rel hgr hc] at htp
            have hcached := tryAbsPath_found_cached st fs (resolveImportPath cwd f p).1 rel
              c f2 (by rw [htp])
            rw [htp] at hcached
            have htp2 : tryPrimaryImport st3 fs2 cwd f p = (.found c f2, st3) := by
              rw [tryPrimaryImport_in st3 fs2 cwd f p rel (by rw [hst2.1]; exact hgr) hc]
              exact tryAbsPath_of_cached_found st3 fs2 (resolveImportPath cwd f p).1 rel
                c f2 hcached
            rw [hres]
            exact Import_primary_found st3 st3 fs2 cwd f p c f2 hnp hnf htp2
      | notFound =>
        rw [Import_primary_notFound st st2 fs cwd f p hnp hnf htp] at h
        rw [searchJPaths_def] at h
        have hsl := sjLoop_state fs p
          (if f = "" then ensureDotInSearchPaths st2.JPaths else st2.JPaths) st2
        rw [h] at hsl
        have hroot3 : st3.rootAbsPath = st.rootAbsPath := hsl.1.trans hst2.1
        have hjp3 : st3.JPaths = st2.JPaths := hsl.2.2
        cases hgr : goRel st.rootAbsPath (resolveImportPath cwd f p).1 with
        | none =>
          rw [tryPrimaryImport_none st fs cwd f p hgr] at htp
          have hsnd := congrArg Prod.snd htp
          rw [primaryReject_snd] at hsnd
          replace hsnd : st = st2 := hsnd
          have htp2 : tryPrimaryImport st3 fs2 cwd f p = (.notFound, st3) := by
            rw [tryPrimaryImport_none st3 fs2 cwd f p (by rw [hroot3]; exact hgr)]
            exact primaryReject_notFound_any st (resolveImportPath cwd f p).2 f
              (congrArg Prod.fst htp) st3
          rw [Import_primary_notFound st3 st3 fs2 cwd f p hnp hnf htp2, searchJPaths_def]
          have hjp : st3.JPaths = st.JPaths := hjp3.trans hst2.2.2
          rw [← hsnd] at h
          rw [hjp]
          exact sjLoop_replay fs fs2 p _ st res st3 h herr
        | some rel =>
          cases hc : (strStarts rel ".." || (strStarts rel "/" && rel != ".")) with
          | true =>
            rw [tryPrimaryImport_out st fs cwd f p rel hgr hc] at htp
            have hsnd := congrArg Prod.snd htp
            rw [primaryReject_snd] at hsnd
            replace hsnd : st = st2 := hsnd
            have htp2 : tryPrimaryImport st3 fs2 cwd f p = (.notFound, st3) := by
              rw [tryPrimaryImport_out st3 fs2 cwd f p rel (by rw [hroot3]; exact hgr) hc]
              exact primaryReject_notFound_any st (resolveImportPath cwd f p).2 f
                (congrArg Prod.fst htp) st3
            rw [Import_primary_notFound st3 st3 fs2 cwd f p hnp hnf htp2, searchJPaths_def]
            have hjp : st3.JPaths = st.JPaths := hjp3.trans hst2.2.2
            rw [← hsnd] at h
            rw [hjp]
            exact sjLoop_replay fs fs2 p _ st res st3 h herr
          | false =>
            rw [tryPrimaryImport_in st fs cwd f p rel hgr hc] at htp
            have hcached := tryAbsPath_notFound_cached st fs
              (resolveImportPath cwd f p).1 rel (by rw [htp])
            rw [htp] at hcached
            have hmono := sjLoop_mono fs p (resolveImportPath cwd f p).1
              CacheEntry.notExist
              (if f = "" then ensureDotInSearchPaths st2.JPaths else st2.JPaths)
              st2 hcached
            rw [h] at hmono
            have htp2 : tryPrimaryImport st3 fs2 cwd f p = (.notFound, st3) := by
              rw [tryPrimaryImport_in st3 fs2 cwd f p rel (by rw [hroot3]; exact hgr) hc]
              exact tryAbsPath_of_cached_notExist st3 fs2
                (resolveImportPath cwd f p).1 rel hmono
            rw [Import_primary_notFound st3 st3 fs2 cwd f p hnp hnf htp2, searchJPaths_def]
            rw [hjp3]
            exact sjLoop_replay fs fs2 p _ st2 res st3 h herr

lemma resolveImportPath_fst_abs (cwd f p : String) (hp : goIsAbs p = true) :
    (resolveImportPath cwd f p).1 = goClean p := by
  unfold resolveImportPath
  rw [if_pos hp]

lemma resolveImportPath_snd_abs (cwd f p : String) (hp : goIsAbs p = true) :
    (resolveImportPath cwd f p).2 = true := by
  unfold resolveImportPath
  rw [if_pos hp]

lemma resolveImportPath_snd_rel (cwd f p : String) (hp : goIsAbs p = false) :
    (resolveImportPath cwd f p).2 = false := by
  unfold resolveImportPath
  rw [if_neg (ne_true_of_false hp)]
  split <;> rfl

lemma resolveImportPath_initial (cwd p : String) (hp : goIsAbs p = false) :
    resolveImportPath cwd "" p = (goClean (absWith cwd p), false) := by
  unfold resolveImportPath
  rw [if_neg (ne_true_of_false hp), if_neg (by simp)]

lemma primaryReject_true (st : Importer) (f : String) :
    primaryReject st true f = (.failed .forbiddenAbsolutePath, st) := rfl

lemma primaryReject_false_nested (st : Importer) (f : String) (hf : (f != "") = true) :
    primaryReject st false f = (.failed .forbiddenRelativePathTraversal, st) := by
  show (if (f != "") = true then
      ((TryResult.failed .forbiddenRelativePathTraversal, st) : TryResult × Importer)
    else (.notFound, st)) = (.failed .forbiddenRelativePathTraversal, st)
  rw [if_pos hf]

lemma primaryReject_false_initial (st : Importer) (f : String) (hf : (f != "") = false) :
    primaryReject st false f = (.notFound, st) := by
  show (if (f != "") = true then
      ((TryResult.failed .forbiddenRelativePathTraversal, st) : TryResult × Importer)
    else (.notFound, st)) = (.notFound, st)
  rw [if_neg (ne_true_of_false hf)]

lemma outside_relOutside (root cand : String) (hroot : goIsAbs root = true)
    (h : underRoot root cand = false) : relOutside (goRel root cand) = true := by
  cases hrel : relOutside (goRel root cand) with
  | true => rfl
  | false =>
    have hu := rootRelInside_underRoot root cand hroot (by simp [rootRelInside, hrel])
    rw [hu] at h
    exact Bool.noConfusion h

lemma tryAbsPath_closed_fsIndep (st : Importer) (fs fs2 : FS) (a r : String)
    (h : st.closed = true) : tryAbsPath st fs a r = tryAbsPath st fs2 a r := by
  cases hl : cacheLookup st.fsCache a with
  | some entry =>
    cases entry with
    | found c f =>
      rw [tryAbsPath_of_cached_found st fs a r c f hl,
        tryAbsPath_of_cached_found st fs2 a r c f hl]
    | notExist =>
      rw [tryAbsPath_of_cached_notExist st fs a r hl,
        tryAbsPath_of_cached_notExist st fs2 a r hl]
  | none =>
    have ho : ∀ fsx : FS, osRootOpen fsx st.rootAbsPath st.closed r = .closedErr := by
      intro fsx
      rw [h]
      rfl
    rw [tryAbsPath_miss_closed st fs a r hl (ho fs), tryAbsPath_miss_closed st fs2 a r hl
      (ho fs2)]

lemma sjLoop_closed_fsIndep (fs fs2 : FS) (p : String) : ∀ (l : List String) (st : Importer),
    st.closed = true → sjLoop fs p st l = sjLoop fs2 p st l := by
  intro l
  induction l with
  | nil =>
    intro st _
    rfl
  | cons jp rest ih =>
    intro st hcl
    cases hgr : goRel st.rootAbsPath (goClean (goJoin [st.rootAbsPath, jp, p])) with
    | none =>
      rw [sjLoop_cons_none fs p st jp rest hgr, sjLoop_cons_none fs2 p st jp rest hgr]
      exact ih st hcl
    | some rel =>
      cases hc : (strStarts rel ".." || (strStarts rel "/" && rel != ".")) with
      | true =>
        rw [sjLoop_cons_out fs p st jp rest rel hgr hc,
          sjLoop_cons_out fs2 p st jp rest rel hgr hc]
        exact ih st hcl
      | false =>
        rcases htry : tryAbsPath st fs (goClean (goJoin [st.rootAbsPath, jp, p])) rel
          with ⟨tr, st2⟩
        have htry2 : tryAbsPath st fs2 (goClean (goJoin [st.rootAbsPath, jp, p])) rel
            = (tr, st2) := by
          rw [← tryAbsPath_closed_fsIndep st fs fs2 _ rel hcl]
          exact htry
        have hs := tryAbsPath_state st fs (goClean (goJoin [st.rootAbsPath, jp, p])) rel
        rw [htry] at hs
        cases tr with
        | found c f =>
          rw [sjLoop_cons_found fs p st st2 jp rest rel c f hgr hc htry,
            sjLoop_cons_found fs2 p st st2 jp rest rel c f hgr hc htry2]
        | notFound =>
          rw [sjLoop_cons_notFound fs p st st2 jp rest rel hgr hc htry,
            sjLoop_cons_notFound fs2 p st st2 jp rest rel hgr hc htry2]
          exact ih st2 (hs.2.1.trans hcl)
        | failed e =>
          rw [sjLoop_cons_failed fs p st st2 jp rest rel e hgr hc htry,
            sjLoop_cons_failed fs2 p st st2 jp rest rel e hgr hc htry2]

lemma Import_closed_fsIndep (st : Importer) (fs fs2 : FS) (cwd f p : String)
    (h : st.closed = true) : Import st fs cwd f p = Import st fs2 cwd f p := by
  cases hnp : containsNull p with
  | true => rw [Import_nullPath st fs cwd f p hnp, Import_nullPath st fs2 cwd f p hnp]
  | false =>
    cases hnf : containsNull f with
    | true =>
      rw [Import_nullFrom st fs cwd f p hnp hnf, Import_nullFrom st fs2 cwd f p hnp hnf]
    | false =>
      rcases htp : tryPrimaryImport st fs cwd f p with ⟨tr, st2⟩
      have htp2 : tryPrimaryImport st fs2 cwd f p = (tr, st2) := by
        cases hgr : goRel st.rootAbsPath (resolveImportPath cwd f p).1 with
        | none =>
          rw [tryPrimaryImport_none st fs2 cwd f p hgr,
            ← tryPrimaryImport_none st fs cwd f p hgr]
          exact htp
        | some rel =>
          cases hc : (strStarts rel ".." || (strStarts rel "/" && rel != ".")) with
          | true =>
            rw [tryPrimaryImport_out st fs2 cwd f p rel hgr hc,
              ← tryPrimaryImport_out st fs cwd f p rel hgr hc]
            exact htp
          | false =>
            rw [tryPrimaryImport_in st fs2 cwd f p rel hgr hc,
              ← tryAbsPath_closed_fsIndep st fs fs2 _ rel h,
              ← tryPrimaryImport_in st fs cwd f p rel hgr hc]
            exact htp
      have hs := tryPrimaryImport_state st fs cwd f p
      rw [htp] at hs
      cases tr with
      | found c f2 =>
        rw [Import_primary_found st st2 fs cwd f p c f2 hnp hnf htp,
          Import_primary_found st st2 fs2 cwd f p c f2 hnp hnf htp2]
      | failed e =>
        rw [Import_primary_failed st st2 fs cwd f p e hnp hnf htp,
          Import_primary_failed st st2 fs2 cwd f p e hnp hnf htp2]
      | notFound =>
        rw [Import_primary_notFound st st2 fs cwd f p hnp hnf htp,
          Import_primary_notFound st st2 fs2 cwd f p hnp hnf htp2,
          searchJPaths_def, searchJPaths_def]
        exact sjLoop_closed_fsIndep fs fs2 p _ st2 (hs.2.1.trans h)

lemma sjLoop_closed_empty_err (fs : FS) (p : String) : ∀ (l : List String) (st : Importer),
    st.closed = true → st.fsCache = [] → (sjLoop fs p st l).1.err ≠ none := by
  intro l
  induction l with
  | nil =>
    intro st _ _
    rw [sjLoop_nil]
    simp
  | cons jp rest ih =>
    intro st hcl hca
    cases hgr : goRel st.rootAbsPath (goClean (goJoin [st.rootAbsPath, jp, p])) with
    | none =>
      rw [sjLoop_cons_none fs p st jp rest hgr]
      exact ih st hcl hca
    | some rel =>
      cases hc : (strStarts rel ".." || (strStarts rel "/" && rel != ".")) with
      | true =>
        rw [sjLoop_cons_out fs p st jp rest rel hgr hc]
        exact ih st hcl hca
      | false =>
        have hl : cacheLookup st.fsCache (goClean (goJoin [st.rootAbsPath, jp, p]))
            = none := by
          rw [hca]
          rfl
        have ho : osRootOpen fs st.rootAbsPath st.closed rel = .closedErr := by
          rw [hcl]
          rfl
        rw [sjLoop_cons_failed fs p st st jp rest rel .readFile hgr hc
          (tryAbsPath_miss_closed st fs _ rel hl ho)]
        simp

lemma Import_reject_err (st : Importer) (fs : FS) (cwd f p : String)
    (hnp : containsNull p = false) (hnf : containsNull f = false)
    (hpr : tryPrimaryImport st fs cwd f p = primaryReject st (resolveImportPath cwd f p).2 f)
    (hcl : st.closed = true) (hca : st.fsCache = []) :
    (Import st fs cwd f p).1.err ≠ none := by
  cases hb : (resolveImportPath cwd f p).2 with
  | true =>
    rw [Import_primary_failed st st fs cwd f p .forbiddenAbsolutePath hnp hnf
      (by rw [hpr, hb, primaryReject_true])]
    simp
  | false =>
    cases hfe : (f != "") with
    | true =>
      rw [Import_primary_failed st st fs cwd f p .forbiddenRelativePathTraversal hnp hnf
        (by rw [hpr, hb, primaryReject_false_nested st f hfe])]
      simp
    | false =>
      rw [Import_primary_notFound st st fs cwd f p hnp hnf
        (by rw [hpr, hb, primaryReject_false_initial st f hfe]), searchJPaths_def]
      exact sjLoop_closed_empty_err fs p _ st hcl hca

lemma Import_closed_empty_err (st : Importer) (fs : FS) (cwd f p : String)
    (hcl : st.closed = true) (hca : st.fsCache = []) :
    (Import st fs cwd f p).1.err ≠ none := by
  cases hnp : containsNull p with
  | true =>
    rw [Import_nullPath st fs cwd f p hnp]
    simp
  | false =>
    cases hnf : containsNull f with
    | true =>
      rw [Import_nullFrom st fs cwd f p hnp hnf]
      simp
    | false =>
      cases hgr : goRel st.rootAbsPath (resolveImportPath cwd f p).1 with
      | none =>
        exact Import_reject_err st fs cwd f p hnp hnf
          (tryPrimaryImport_none st fs cwd f p hgr) hcl hca
      | some rel =>
        cases hc : (strStarts rel ".." || (strStarts rel "/" && rel != ".")) with
        | true =>
          exact Import_reject_err st fs cwd f p hnp hnf
            (tryPrimaryImport_out st fs cwd f p rel hgr hc) hcl hca
        | false =>
          have hl : cacheLookup st.fsCache (resolveImportPath cwd f p).1 = none := by
            rw [hca]
            rfl
          have ho : osRootOpen fs st.rootAbsPath st.closed rel = .closedErr := by
            rw [hcl]
            rfl
          rw [Import_primary_failed st st fs cwd f p .readFile hnp hnf (by
            rw [tryPrimaryImport_in st fs cwd f p rel hgr hc]
            exact tryAbsPath_miss_closed st fs _ rel hl ho)]
          simp

lemma osRootOpen_ok_inv (fs : FS) (root : String) (cl : Bool) (rel d : String)
    (h : osRootOpen fs root cl rel = .ok d) :
    underRoot root (goJoin [root, rel]) = true
    ∧ fsLookup fs.files (goJoin [root, rel]) = some d := by
  unfold osRootOpen at h
  cases cl with
  | true =>
    replace h : OpenResult.closedErr = OpenResult.ok d := h
    exact OpenResult.noConfusion h
  | false =>
    cases hu : underRoot root (goJoin [root, rel]) with
    | false =>
      rw [hu] at h
      replace h : OpenResult.escapeErr = OpenResult.ok d := h
      exact OpenResult.noConfusion h
    | true =>
      rw [hu] at h
      cases hc : fs.escapes.contains rel with
      | true =>
        rw [hc] at h
        replace h : OpenResult.escapeErr = OpenResult.ok d := h
        exact OpenResult.noConfusion h
      | false =>
        rw [hc] at h
        cases hfl : fsLookup fs.files (goJoin [root, rel]) with
        | some d2 =>
          rw [hfl] at h
          replace h : OpenResult.ok d2 = OpenResult.ok d := h
          simp only [OpenResult.ok.injEq] at h
          exact ⟨rfl, by rw [h]⟩
        | none =>
          rw [hfl] at h
          replace h : OpenResult.notExist = OpenResult.ok d := h
          exact OpenResult.noConfusion h

lemma osRootOpen_escape_mem (fs : FS) (root : String) (cl : Bool) (rel : String)
    (hcl : cl = false) (hm : fs.escapes.contains rel = true) :
    osRootOpen fs root cl rel = .escapeErr := by
  subst hcl
  unfold osRootOpen
  cases hu : underRoot root (goJoin [root, rel]) with
  | false => rfl
  | true =>
    rw [hm]
    rfl

lemma tryAbsPath_escape_err (st : Importer) (fs : FS) (a r : String)
    (hl : cacheLookup st.fsCache a = none) (hm : fs.escapes.contains r = true)
    (hcl : st.closed = false) : (tryAbsPath st fs a r).1 = .failed .readFile := by
  rw [tryAbsPath_miss_escape st fs a r hl
    (osRootOpen_escape_mem fs st.rootAbsPath st.closed r hcl hm)]

lemma resolveImportPath_fst_clean (cwd f p : String) :
    goClean (resolveImportPath cwd f p).1 = (resolveImportPath cwd f p).1 := by
  cases hp : goIsAbs p with
  | true =>
    rw [resolveImportPath_fst_abs cwd f p hp]
    exact goClean_idem p
  | false =>
    cases hf : (f != "") with
    | true =>
      have hfst : (resolveImportPath cwd f p).1 = goClean (goJoin
          [(if goIsAbs (goDir f) then goDir f else absWith cwd (goDir f)), p]) := by
        unfold resolveImportPath
        rw [if_neg (ne_true_of_false hp), if_pos hf]
      rw [hfst]
      exact goClean_idem _
    | false =>
      have hfst : (resolveImportPath cwd f p).1 = goClean (absWith cwd p) := by
        unfold resolveImportPath
        rw [if_neg (ne_true_of_false hp), if_neg (ne_true_of_false hf)]
      rw [hfst]
      exact goClean_idem _

lemma tryAbsPath_confined (st : Importer) (fs : FS) (absPath rel : String)
    (hok : CacheOK st fs) (hlink : goJoin [st.rootAbsPath, rel] = absPath) :
    (∀ c f2, (tryAbsPath st fs absPath rel).1 = .found c f2 →
      f2 = absPath ∧ underRoot st.rootAbsPath absPath = true
      ∧ fsLookup fs.files absPath = some c)
    ∧ CacheOK (tryAbsPath st fs absPath rel).2 fs := by
  cases hl : cacheLookup st.fsCache absPath with
  | some entry =>
    cases entry with
    | found c0 f0 =>
      rw [tryAbsPath_of_cached_found st fs absPath rel c0 f0 hl]
      have he := hok absPath (.found c0 f0) hl
      refine ⟨?_, hok⟩
      intro c f2 hf
      replace hf : TryResult.found c0 f0 = TryResult.found c f2 := hf
      simp only [TryResult.found.injEq] at hf
      refine ⟨?_, he.2.1, ?_⟩
      · rw [← hf.2]
        exact he.1
      · rw [← hf.1]
        exact he.2.2
    | notExist =>
      rw [tryAbsPath_of_cached_notExist st fs absPath rel hl]
      refine ⟨?_, hok⟩
      intro c f2 hf
      replace hf : TryResult.notFound = TryResult.found c f2 := hf
      exact TryResult.noConfusion hf
  | none =>
    cases ho : osRootOpen fs st.rootAbsPath st.closed rel with
    | ok d =>
      rw [tryAbsPath_miss_ok st fs absPath rel d hl ho]
      have hfacts := osRootOpen_ok_inv fs st.rootAbsPath st.closed rel d ho
      rw [hlink] at hfacts
      refine ⟨?_, ?_⟩
      · intro c f2 hf
        replace hf : TryResult.found d absPath = TryResult.found c f2 := hf
        simp only [TryResult.found.injEq] at hf
        refine ⟨hf.2.symm, hfacts.1, ?_⟩
        rw [← hf.1]
        exact hfacts.2
      · intro k e hk
        replace hk : cacheLookup ((absPath, CacheEntry.found d absPath) :: st.fsCache) k
            = some e := hk
        by_cases hak : absPath = k
        · subst hak
          have : some (CacheEntry.found d absPath) = some e := by
            rw [← hk]
            simp [cacheLookup]
          replace this := Option.some_injective _ this
          rw [← this]
          exact ⟨rfl, hfacts.1, hfacts.2⟩
        · rw [cacheLookup_store_ne _ _ _ _ hak] at hk
          exact hok k e hk
    | notExist =>
      rw [tryAbsPath_miss_notExist st fs absPath rel hl ho]
      refine ⟨?_, ?_⟩
      · intro c f2 hf
        replace hf : TryResult.notFound = TryResult.found c f2 := hf
        exact TryResult.noConfusion hf
      · intro k e hk
        replace hk : cacheLookup ((absPath, CacheEntry.notExist) :: st.fsCache) k
            = some e := hk
        by_cases hak : absPath = k
        · subst hak
          have : some CacheEntry.notExist = some e := by
            rw [← hk]
            simp [cacheLookup]
          replace this := Option.some_injective _ this
          rw [← this]
          exact trivial
        · rw [cacheLookup_store_ne _ _ _ _ hak] at hk
          exact hok k e hk
    | escapeErr =>
      rw [tryAbsPath_miss_escape st fs absPath rel hl ho]
      refine ⟨?_, hok⟩
      intro c f2 hf
      replace hf : TryResult.failed .readFile = TryResult.found c f2 := hf
      exact TryResult.noConfusion hf
    | closedErr =>
      rw [tryAbsPath_miss_closed st fs absPath rel hl ho]
      refine ⟨?_, hok⟩
      intro c f2 hf
      replace hf : TryResult.failed .readFile = TryResult.found c f2 := hf
      exact TryResult.noConfusion hf

lemma sjLoop_confined (fs : FS) (p root : String) (hra : goIsAbs root = true)
    (hrc : goClean root = root) : ∀ (l : List String) (st : Importer),
    st.rootAbsPath = root → CacheOK st fs →
    ((sjLoop fs p st l).1.err = none →
      underRoot root (sjLoop fs p st l).1.foundAt = true
      ∧ fsLookup fs.files (sjLoop fs p st l).1.foundAt
        = some (sjLoop fs p st l).1.contents)
    ∧ CacheOK (sjLoop fs p st l).2 fs := by
  intro l
  induction l with
  | nil =>
    intro st hst hok
    rw [sjLoop_nil]
    exact ⟨fun h => by simp at h, hok⟩
  | cons jp rest ih =>
    intro st hst hok
    cases hgr : goRel st.rootAbsPath (goClean (goJoin [st.rootAbsPath, jp, p])) with
    | none =>
      rw [sjLoop_cons_none fs p st jp rest hgr]
      exact ih st hst hok
    | some rel =>
      cases hc : (strStarts rel ".." || (strStarts rel "/" && rel != ".")) with
      | true =>
        rw [sjLoop_cons_out fs p st jp rest rel hgr hc]
        exact ih st hst hok
      | false =>
        have hlink : goJoin [st.rootAbsPath, rel]
            = goClean (goJoin [st.rootAbsPath, jp, p]) := by
          refine goJoin_rel_roundtrip st.rootAbsPath _ rel ?_ ?_ (goClean_idem _) hgr ?_
          · rw [hst]
            exact hra
          · rw [hst]
            exact hrc
          · exact hc
        have hconf := tryAbsPath_confined st fs (goClean (goJoin [st.rootAbsPath, jp, p]))
          rel hok hlink
        rcases htry : tryAbsPath st fs (goClean (goJoin [st.rootAbsPath, jp, p])) rel
          with ⟨tr, st2⟩
        rw [htry] at hconf
        have hs := tryAbsPath_state st fs (goClean (goJoin [st.rootAbsPath, jp, p])) rel
        rw [htry] at hs
        cases tr with
        | found c f =>
          rw [sjLoop_cons_found fs p st st2 jp rest rel c f hgr hc htry]
          have hfacts := hconf.1 c f rfl
          refine ⟨fun _ => ⟨?_, ?_⟩, hconf.2⟩
          · show underRoot root f = true
            rw [hfacts.1, ← hst]
            exact hfacts.2.1
          · show fsLookup fs.files f = some c
            rw [hfacts.1]
            exact hfacts.2.2
        | notFound =>
          rw [sjLoop_cons_notFound fs p st st2 jp rest rel hgr hc htry]
          exact ih st2 (hs.1.trans hst) hconf.2
        | failed e =>
          rw [sjLoop_cons_failed fs p st st2 jp rest rel e hgr hc htry]
          exact ⟨fun h => by simp at h, hconf.2⟩

lemma primaryReject_shape (st : Importer) (b : Bool) (f : String) :
    primaryReject st b f = (.failed .forbiddenAbsolutePath, st)
    ∨ primaryReject st b f = (.failed .forbiddenRelativePathTraversal, st)
    ∨ primaryReject st b f = (.notFound, st) := by
  cases b with
  | true => exact Or.inl (primaryReject_true st f)
  | false =>
    cases hf : (f != "") with
    | true => exact Or.inr (Or.inl (primaryReject_false_nested st f hf))
    | false => exact Or.inr (Or.inr (primaryReject_false_initial st f hf))

lemma Import_abs_outside (st : Importer) (fs : FS) (cwd f p : String)
    (hroot : goIsAbs st.rootAbsPath = true)
    (hnp : containsNull p = false) (hnf : containsNull f = false)
    (hpabs : goIsAbs p = true) (hout : underRoot st.rootAbsPath (goClean p) = false) :
    Import st fs cwd f p = (⟨"", "", some .forbiddenAbsolutePath⟩, st) := by
  have hrel : relOutside (goRel st.rootAbsPath (goClean p)) = true :=
    outside_relOutside _ _ hroot hout
  have hfst := resolveImportPath_fst_abs cwd f p hpabs
  have hsnd := resolveImportPath_snd_abs cwd f p hpabs
  cases hgr : goRel st.rootAbsPath (resolveImportPath cwd f p).1 with
  | none =>
    refine Import_primary_failed st st fs cwd f p _ hnp hnf ?_
    rw [tryPrimaryImport_none st fs cwd f p hgr, hsnd, primaryReject_true]
  | some rel =>
    have hgr2 : goRel st.rootAbsPath (goClean p) = some rel := by
      rw [← hfst]
      exact hgr
    have hcond : (strStarts rel ".." || (strStarts rel "/" && rel != ".")) = true := by
      rw [hgr2] at hrel
      exact hrel
    refine Import_primary_failed st st fs cwd f p _ hnp hnf ?_
    rw [tryPrimaryImport_out st fs cwd f p rel hgr hcond, hsnd, primaryReject_true]

lemma Import_nested_outside (st : Importer) (fs : FS) (cwd f p : String)
    (hroot : goIsAbs st.rootAbsPath = true)
    (hnp : containsNull p = false) (hnf : containsNull f = false)
    (hprel : goIsAbs p = false) (hfne : (f != "") = true)
    (hout : underRoot st.rootAbsPath (resolveImportPath cwd f p).1 = false) :
    Import st fs cwd f p = (⟨"", "", some .forbiddenRelativePathTraversal⟩, st) := by
  have hrel : relOutside (goRel st.rootAbsPath (resolveImportPath cwd f p).1) = true :=
    outside_relOutside _ _ hroot hout
  have hsnd := resolveImportPath_snd_rel cwd f p hprel
  cases hgr : goRel st.rootAbsPath (resolveImportPath cwd f p).1 with
  | none =>
    refine Import_primary_failed st st fs cwd f p _ hnp hnf ?_
    rw [tryPrimaryImport_none st fs cwd f p hgr, hsnd,
      primaryReject_false_nested st f hfne]
  | some rel =>
    have hcond : (strStarts rel ".." || (strStarts rel "/" && rel != ".")) = true := by
      rw [hgr] at hrel
      exact hrel
    refine Import_primary_failed st st fs cwd f p _ hnp hnf ?_
    rw [tryPrimaryImport_out st fs cwd f p rel hgr hcond, hsnd,
      primaryReject_false_nested st f hfne]

lemma Import_inside_found (st : Importer) (fs : FS) (cwd f p rel c : String)
    (hra : goIsAbs st.rootAbsPath = true) (hrc : goClean st.rootAbsPath = st.rootAbsPath)
    (hnp : containsNull p = false) (hnf : containsNull f = false)
    (hgr : goRel st.rootAbsPath (resolveImportPath cwd f p).1 = some rel)
    (hc : (strStarts rel ".." || (strStarts rel "/" && rel != ".")) = false)
    (hmiss : cacheLookup st.fsCache (resolveImportPath cwd f p).1 = none)
    (hesc : fs.escapes.contains rel = false)
    (hcl : st.closed = false)
    (hfl : fsLookup fs.files (resolveImportPath cwd f p).1 = some c) :
    (Import st fs cwd f p).1 = ⟨c, (resolveImportPath cwd f p).1, none⟩ := by
  have hlink : goJoin [st.rootAbsPath, rel] = (resolveImportPath cwd f p).1 :=
    goJoin_rel_roundtrip st.rootAbsPath _ rel hra hrc
      (resolveImportPath_fst_clean cwd f p) hgr hc
  have hunder : underRoot st.rootAbsPath (resolveImportPath cwd f p).1 = true := by
    refine rootRelInside_underRoot st.rootAbsPath _ hra ?_
    unfold rootRelInside
    rw [hgr, show relOutside (some rel) = false from hc]
    rfl
  have ho : osRootOpen fs st.rootAbsPath st.closed rel
      = .ok c := by
    unfold osRootOpen
    rw [hcl, hlink, hunder, hesc, hfl]
    rfl
  have htry := tryAbsPath_miss_ok st fs (resolveImportPath cwd f p).1 rel c hmiss ho
  have htp := (tryPrimaryImport_in st fs cwd f p rel hgr hc).trans htry
  rw [Import_primary_found st _ fs cwd f p c (resolveImportPath cwd f p).1 hnp hnf htp]

lemma osRootOpen_ok_intro (fs : FS) (root rel d : String)
    (hund : underRoot root (goJoin [root, rel]) = true)
    (hesc : fs.escapes.contains rel = false)
    (hfl : fsLookup fs.files (goJoin [root, rel]) = some d) :
    osRootOpen fs root false rel = .ok d := by
  unfold osRootOpen
  rw [hund, hesc, hfl]
  rfl

lemma osRootOpen_notExist_intro (fs : FS) (root rel : String)
    (hund : underRoot root (goJoin [root, rel]) = true)
    (hesc : fs.escapes.contains rel = false)
    (hfl : fsLookup fs.files (goJoin [root, rel]) = none) :
    osRootOpen fs root false rel = .notExist := by
  unfold osRootOpen
  rw [hund, hesc, hfl]
  rfl

lemma searchFirst_cons_skip (root : String) (fs : FS) (p jp : String) (rest : List String)
    (h : rootRelInside root (goClean (goJoin [root, jp, p])) = false) :
    searchFirst root fs p (jp :: rest) = searchFirst root fs p rest := by
  conv_lhs => unfold searchFirst
  rw [if_neg (ne_true_of_false h)]

lemma searchFirst_cons_found (root : String) (fs : FS) (p jp : String) (rest : List String)
    (c : String)
    (h : rootRelInside root (goClean (goJoin [root, jp, p])) = true)
    (hfl : fsLookup fs.files (goClean (goJoin [root, jp, p])) = some c) :
    searchFirst root fs p (jp :: rest) = some (c, goClean (goJoin [root, jp, p])) := by
  conv_lhs => unfold searchFirst
  rw [if_pos h, hfl]

lemma searchFirst_cons_miss (root : String) (fs : FS) (p jp : String) (rest : List String)
    (h : rootRelInside root (goClean (goJoin [root, jp, p])) = true)
    (hfl : fsLookup fs.files (goClean (goJoin [root, jp, p])) = none) :
    searchFirst root fs p (jp :: rest) = searchFirst root fs p rest := by
  conv_lhs => unfold searchFirst
  rw [if_pos h, hfl]

lemma cacheAcc_store_notExist (st : Importer) (fs : FS) (a : String)
    (hacc : CacheAcc st fs) (hfl : fsLookup fs.files a = none) :
    CacheAcc { st with fsCache := (a, CacheEntry.notExist) :: st.fsCache } fs := by
  intro k e h
  by_cases hk : a = k
  · replace h : (if a = k then some CacheEntry.notExist else cacheLookup st.fsCache k)
      = some e := h
    rw [if_pos hk] at h
    replace h : CacheEntry.notExist = e := Option.some.inj h
    subst h
    subst hk
    exact hfl
  · replace h : (if a = k then some CacheEntry.notExist else cacheLookup st.fsCache k)
      = some e := h
    rw [if_neg hk] at h
    exact hacc k e h

/-- With an accurate cache, open escapes ruled out and an open handle,
the library-search loop computes exactly the declarative first-hit
search: the first in-order candidate classified inside the root that
names a file, or the file-not-found error when none does. -/
lemma sjLoop_searchFirst (fs : FS) (p : String) : ∀ (l : List String) (st : Importer),
    goIsAbs st.rootAbsPath = true → goClean st.rootAbsPath = st.rootAbsPath →
    st.closed = false → fs.escapes = [] → CacheAcc st fs →
    (sjLoop fs p st l).1 =
      (match searchFirst st.rootAbsPath fs p l with
        | some pr => ⟨pr.1, pr.2, none⟩
        | none => ⟨"", "", some ImpError.fileNotFound⟩) := by
  intro l
  induction l with
  | nil =>
    intro st _ _ _ _ _
    rfl
  | cons jp rest ih =>
    intro st hra hrc hcl hfse hacc
    cases hgr : goRel st.rootAbsPath (goClean (goJoin [st.rootAbsPath, jp, p])) with
    | none =>
      have hri : rootRelInside st.rootAbsPath (goClean (goJoin [st.rootAbsPath, jp, p]))
          = false := by
        unfold rootRelInside
        rw [hgr]
        rfl
      rw [sjLoop_cons_none fs p st jp rest hgr,
        searchFirst_cons_skip st.rootAbsPath fs p jp rest hri]
      exact ih st hra hrc hcl hfse hacc
    | some rel =>
      cases hc : (strStarts rel ".." || (strStarts rel "/" && rel != ".")) with
      | true =>
        have hri : rootRelInside st.rootAbsPath (goClean (goJoin [st.rootAbsPath, jp, p]))
            = false := by
          unfold rootRelInside
          rw [hgr, show relOutside (some rel) = true from hc]
          rfl
        rw [sjLoop_cons_out fs p st jp rest rel hgr hc,
          searchFirst_cons_skip st.rootAbsPath fs p jp rest hri]
        exact ih st hra hrc hcl hfse hacc
      | false =>
        have hri : rootRelInside st.rootAbsPath (goClean (goJoin [st.rootAbsPath, jp, p]))
            = true := by
          unfold rootRelInside
          rw [hgr, show relOutside (some rel) = false from hc]
          rfl
        cases hl : cacheLookup st.fsCache (goClean (goJoin [st.rootAbsPath, jp, p])) with
        | some entry =>
          cases entry with
          | found c f =>
            obtain ⟨hfk, _, hflook⟩ := hacc _ _ hl
            rw [sjLoop_cons_found fs p st st jp rest rel c f hgr hc
                (tryAbsPath_of_cached_found st fs _ rel c f hl),
              searchFirst_cons_found st.rootAbsPath fs p jp rest c hri hflook, hfk]
          | notExist =>
            have hflook : fsLookup fs.files (goClean (goJoin [st.rootAbsPath, jp, p]))
                = none := hacc _ _ hl
            rw [sjLoop_cons_notFound fs p st st jp rest rel hgr hc
                (tryAbsPath_of_cached_notExist st fs _ rel hl),
              searchFirst_cons_miss st.rootAbsPath fs p jp rest hri hflook]
            exact ih st hra hrc hcl hfse hacc
        | none =>
          have hlink : goJoin [st.rootAbsPath, rel]
              = goClean (goJoin [st.rootAbsPath, jp, p]) :=
            goJoin_rel_roundtrip st.rootAbsPath _ rel hra hrc
              (goClean_idem (goJoin [st.rootAbsPath, jp, p])) hgr hc
          have hund : underRoot st.rootAbsPath (goClean (goJoin [st.rootAbsPath, jp, p]))
              = true := rootRelInside_underRoot st.rootAbsPath _ hra hri
          have hesc : fs.escapes.contains rel = false := by
            rw [hfse]
            rfl
          cases hfl : fsLookup fs.files (goClean (goJoin [st.rootAbsPath, jp, p])) with
          | some d =>
            have ho : osRootOpen fs st.rootAbsPath st.closed rel = .ok d := by
              rw [hcl]
              exact osRootOpen_ok_intro fs st.rootAbsPath rel d
                (by rw [hlink]; exact hund) hesc (by rw [hlink]; exact hfl)
            rw [sjLoop_cons_found fs p st _ jp rest rel d _ hgr hc
                (tryAbsPath_miss_ok st fs _ rel d hl ho),
              searchFirst_cons_found st.rootAbsPath fs p jp rest d hri hfl]
          | none =>
            have ho : osRootOpen fs st.rootAbsPath st.closed rel = .notExist := by
              rw [hcl]
              exact osRootOpen_notExist_intro fs st.rootAbsPath rel
                (by rw [hlink]; exact hund) hesc (by rw [hlink]; exact hfl)
            rw [sjLoop_cons_notFound fs p st _ jp rest rel hgr hc
                (tryAbsPath_miss_notExist st fs _ rel hl ho),
              searchFirst_cons_miss st.rootAbsPath fs p jp rest hri hfl]
            exact ih _ hra hrc hcl hfse (cacheAcc_store_notExist st fs _ hacc hfl)

lemma goRel_self (x : String) : goRel x x = some "." := by
  unfold goRel
  rw [if_pos rfl]

lemma resolveJPath_dot (root : String) (hra : goIsAbs root = true)
    (hrc : goClean root = root) :
    resolveJPath root "." = some "." := by
  have hrne : root ≠ "" := goIsAbs_ne_empty root hra
  have hcand : goClean (if goIsAbs "." then ("." : String) else goJoin [root, "."])
      = root := by
    rw [if_neg (by decide), goJoin_pair root "." hrne (by decide),
      show ("." : String).data = ['.'] from rfl,
      goClean_dot_append root hrne, hrc, hrc]
  unfold resolveJPath
  rw [hcand, goRel_self root]
  decide

lemma resolveJPath_some_inside (root jp rel : String) (hra : goIsAbs root = true)
    (h : resolveJPath root jp = some rel) :
    underRoot root (goClean (if goIsAbs jp then jp else goJoin [root, jp])) = true := by
  refine rootRelInside_underRoot root _ hra ?_
  unfold resolveJPath at h
  cases hgr : goRel root (goClean (if goIsAbs jp then jp else goJoin [root, jp])) with
  | none =>
    rw [hgr] at h
    exact Option.noConfusion h
  | some rel2 =>
    rw [hgr] at h
    replace h : (if (strStarts rel2 ".." || (strStarts rel2 "/" && rel2 != ".")) = true
        then (none : Option String) else some rel2) = some rel := h
    cases hc : (strStarts rel2 ".." || (strStarts rel2 "/" && rel2 != ".")) with
    | true =>
      rw [if_pos hc] at h
      exact Option.noConfusion h
    | false =>
      unfold rootRelInside
      rw [hgr, show relOutside (some rel2) = false from hc]
      rfl

lemma resolveJPath_none_of_outside (root jp : String) (hra : goIsAbs root = true)
    (hout : underRoot root (goClean (if goIsAbs jp then jp else goJoin [root, jp]))
      = false) :
    resolveJPath root jp = none := by
  have hrel := outside_relOutside _ _ hra hout
  unfold resolveJPath
  cases hgr : goRel root (goClean (if goIsAbs jp then jp else goJoin [root, jp])) with
  | none => rfl
  | some rel =>
    rw [hgr] at hrel
    dsimp only
    rw [if_pos
      (show (strStarts rel ".." || (strStarts rel "/" && rel != ".")) = true from hrel)]

lemma processLoop_cons_empty (root : String) (rest : List String) :
    processLoop root ("" :: rest) = processLoop root rest := by
  conv_lhs => unfold processLoop
  rw [if_pos rfl]

lemma processLoop_cons_null (root jp : String) (rest : List String)
    (hne : jp ≠ "") (hnull : containsNull jp = true) :
    processLoop root (jp :: rest) = .error (.invalidNullByte jp) := by
  conv_lhs => unfold processLoop
  rw [if_neg hne, if_pos hnull]

lemma processLoop_cons_step (root jp : String) (rest : List String)
    (hne : jp ≠ "") (hnull : containsNull jp = false) :
    processLoop root (jp :: rest) =
      (match resolveJPath root jp with
        | none => .error (.jpathOutsideRoot jp)
        | some rel =>
          match processLoop root rest with
          | .error e => .error e
          | .ok acc => .ok (rel :: acc)) := by
  conv_lhs => unfold processLoop
  rw [if_neg hne, if_neg (ne_true_of_false hnull)]

lemma processLoop_all_empty (root : String) : ∀ (l : List String),
    (∀ jp ∈ l, jp = "") → processLoop root l = .ok [] := by
  intro l
  induction l with
  | nil =>
    intro _
    rfl
  | cons jp rest ih =>
    intro h
    have hjp : jp = "" := h jp (List.mem_cons_self jp rest)
    subst hjp
    rw [processLoop_cons_empty]
    exact ih (fun x hx => h x (List.mem_cons_of_mem _ hx))

lemma processLoop_ok_resolves (root : String) : ∀ (l : List String) (acc : List String),
    processLoop root l = .ok acc →
    ∀ jp ∈ l, jp ≠ "" → ∃ rel, resolveJPath root jp = some rel := by
  intro l
  induction l with
  | nil =>
    intro acc _ jp hm
    exact absurd hm (List.not_mem_nil jp)
  | cons jp0 rest ih =>
    intro acc h jp hm hne
    by_cases hjp0 : jp0 = ""
    · subst hjp0
      rw [processLoop_cons_empty] at h
      rcases List.mem_cons.mp hm with hEq | hmem
      · exact absurd hEq hne
      · exact ih acc h jp hmem hne
    · cases hnull : containsNull jp0 with
      | true =>
        rw [processLoop_cons_null root jp0 rest hjp0 hnull] at h
        exact Except.noConfusion h
      | false =>
        rw [processLoop_cons_step root jp0 rest hjp0 hnull] at h
        cases hr : resolveJPath root jp0 with
        | none =>
          rw [hr] at h
          exact Except.noConfusion h
        | some rel =>
          rw [hr] at h
          rcases List.mem_cons.mp hm with hEq | hmem
          · subst hEq
            exact ⟨rel, hr⟩
          · cases hrest : processLoop root rest with
            | error e =>
              rw [hrest] at h
              exact Except.noConfusion h
            | ok acc2 =>
              exact ih acc2 hrest jp hmem hne

lemma processLoop_err_of_outside (root : String) : ∀ (l : List String),
    (∀ jp ∈ l, containsNull jp = false) →
    ∀ jp ∈ l, jp ≠ "" → resolveJPath root jp = none →
    ∃ jp2, processLoop root l = .error (.jpathOutsideRoot jp2) := by
  intro l
  induction l with
  | nil =>
    intro _ jp hm
    exact absurd hm (List.not_mem_nil jp)
  | cons jp0 rest ih =>
    intro hnull jp hm hne hr
    by_cases hjp0 : jp0 = ""
    · subst hjp0
      rw [processLoop_cons_empty]
      rcases List.mem_cons.mp hm with hEq | hmem
      · exact absurd hEq hne
      · exact ih (fun x hx => hnull x (List.mem_cons_of_mem _ hx)) jp hmem hne hr
    · have hn0 : containsNull jp0 = false := hnull jp0 (List.mem_cons_self jp0 rest)
      rw [processLoop_cons_step root jp0 rest hjp0 hn0]
      cases hr0 : resolveJPath root jp0 with
      | none =>
        exact ⟨jp0, rfl⟩
      | some rel =>
        rcases List.mem_cons.mp hm with hEq | hmem
        · subst hEq
          rw [hr] at hr0
          exact Option.noConfusion hr0
        · rcases ih (fun x hx => hnull x (List.mem_cons_of_mem _ hx)) jp hmem hne hr
            with ⟨jp2, hrest⟩
          rw [hrest]
          exact ⟨jp2, rfl⟩

lemma processJPaths_ok (root : String) (jpaths acc : List String)
    (h : processLoop root (if jpaths = [] then ["."] else jpaths) = .ok acc) :
    processJPaths root jpaths = .ok (if acc = [] then ["."] else acc) := by
  unfold processJPaths
  rw [h]

lemma processJPaths_err (root : String) (jpaths : List String) (e : ConErr)
    (h : processLoop root (if jpaths = [] then ["."] else jpaths) = .error e) :
    processJPaths root jpaths = .error e := by
  unfold processJPaths
  rw [h]

lemma NewSafeImporter_okArm (cwd rootDir : String) (jpaths js : List String)
    (hrd : rootDir ≠ "")
    (h : processJPaths (rootAbsOf cwd rootDir) jpaths = .ok js) :
    NewSafeImporter cwd rootDir jpaths = .ok ⟨js, rootAbsOf cwd rootDir, false, []⟩ := by
  unfold NewSafeImporter
  rw [if_neg hrd, h]

lemma NewSafeImporter_errArm (cwd rootDir : String) (jpaths : List String) (e : ConErr)
    (hrd : rootDir ≠ "")
    (h : processJPaths (rootAbsOf cwd rootDir) jpaths = .error e) :
    NewSafeImporter cwd rootDir jpaths = .error e := by
  unfold NewSafeImporter
  rw [if_neg hrd, h]

lemma NewSafeImporter_ok_processLoop (cwd rootDir : String) (jpaths : List String)
    (imp : Importer) (h : NewSafeImporter cwd rootDir jpaths = .ok imp) :
    ∃ acc, processLoop (rootAbsOf cwd rootDir) (if jpaths = [] then ["."] else jpaths)
      = .ok acc := by
  by_cases hrd : rootDir = ""
  · unfold NewSafeImporter at h
    rw [if_pos hrd] at h
    exact Except.noConfusion h
  · cases hpl : processLoop (rootAbsOf cwd rootDir)
        (if jpaths = [] then ["."] else jpaths) with
    | ok acc => exact ⟨acc, rfl⟩
    | error e =>
      rw [NewSafeImporter_errArm cwd rootDir jpaths e hrd
        (processJPaths_err _ _ e hpl)] at h
      exact Except.noConfusion h

lemma processLoop_dot (root : String) (hra : goIsAbs root = true)
    (hrc : goClean root = root) :
    processLoop root ["."] = .ok ["."] := by
  rw [processLoop_cons_step root "." [] (by decide) (by decide),
    resolveJPath_dot root hra hrc]
  rfl

lemma listHasPre_dd_cons_slash (t y : List Char) (hg : GoodComp t)
    (hf : listHasPre t dotdot = false) :
    listHasPre (t ++ '/' :: y) dotdot = false := by
  cases t with
  | nil => exact absurd rfl hg.1
  | cons c t2 =>
    cases t2 with
    | nil =>
      have hc : (c == '.') = false := by
        cases hcc : (c == '.') with
        | false => rfl
        | true =>
          have hcd : c = '.' := by simpa using hcc
          subst hcd
          exact absurd rfl hg.2.2
      show (c == '.' && listHasPre ('/' :: y) ['.']) = false
      rw [hc]
      rfl
    | cons c2 t3 =>
      replace hf : (c == '.' && (c2 == '.' && listHasPre t3 [])) = false := hf
      show (c == '.' && (c2 == '.' && listHasPre (t3 ++ '/' :: y) [])) = false
      have h1 : listHasPre t3 [] = true := by cases t3 <;> rfl
      have h2 : listHasPre (t3 ++ '/' :: y) [] = true := by cases t3 <;> rfl
      rw [h2]
      rw [h1] at hf
      exact hf

lemma listHasPre_dd_join (t : List Char) (ts2 : List (List Char)) (hg : GoodComp t)
    (hf : listHasPre t dotdot = false) :
    listHasPre (joinSlash (t :: ts2)) dotdot = false := by
  cases ts2 with
  | nil => exact hf
  | cons d ds =>
    show listHasPre (t ++ '/' :: joinSlash (d :: ds)) dotdot = false
    exact listHasPre_dd_cons_slash t _ hg hf

lemma listHasPre_slash_join (t : List Char) (ts2 : List (List Char)) (hg : GoodComp t) :
    listHasPre (joinSlash (t :: ts2)) ['/'] = false := by
  have hhead : ∀ y : List Char, listHasPre (t ++ y) ['/'] = false := by
    intro y
    cases t with
    | nil => exact absurd rfl hg.1
    | cons c t2 =>
      have hc : (c == '/') = false := by
        cases hcc : (c == '/') with
        | false => rfl
        | true =>
          have hcd : c = '/' := by simpa using hcc
          subst hcd
          exact absurd (List.mem_cons_self _ _) hg.2.1
      show (c == '/' && listHasPre (t2 ++ y) []) = false
      rw [hc]
      rfl
  cases ts2 with
  | nil =>
    have h0 := hhead []
    rw [List.append_nil] at h0
    exact h0
  | cons d ds =>
    show listHasPre (t ++ '/' :: joinSlash (d :: ds)) ['/'] = false
    exact hhead _

lemma relOutside_render_false (t : List Char) (ts2 : List (List Char)) (hg : GoodComp t)
    (hf : listHasPre t dotdot = false) :
    relOutside (some (render false (t :: ts2))) = false := by
  have hrender : render false (t :: ts2) = ⟨joinSlash (t :: ts2)⟩ := by
    unfold render
    rw [if_neg (by simp), if_neg (by simp)]
  show (strStarts (render false (t :: ts2)) ".."
    || (strStarts (render false (t :: ts2)) "/" && render false (t :: ts2) != ".")) = false
  rw [hrender]
  have h1 : strStarts ⟨joinSlash (t :: ts2)⟩ ".." = false := by
    unfold strStarts
    rw [show (".." : String).data = dotdot from rfl]
    exact listHasPre_dd_join t ts2 hg hf
  have h2 : strStarts ⟨joinSlash (t :: ts2)⟩ "/" = false := by
    unfold strStarts
    rw [show ("/" : String).data = ['/'] from rfl]
    exact listHasPre_slash_join t ts2 hg
  rw [h1, h2]
  rfl

/-- Completion of the inside-root classification on descendants: a
candidate that is the root or below it, whose first root-relative
component does not begin with two dots, is classified inside. -/
lemma inside_of_under_nodd (root cand : String) (hroot : goIsAbs root = true)
    (hu : underRoot root cand = true) (hfd : firstRelCompDD root cand = false) :
    rootRelInside root cand = true := by
  have hu2 : (goIsAbs cand && compIsPre (pathComps root) (pathComps cand)) = true := hu
  simp only [Bool.and_eq_true] at hu2
  obtain ⟨hca, hpre⟩ := hu2
  by_cases heq : goClean root = goClean cand
  · have hgr : goRel root cand = some "." := by
      unfold goRel
      rw [if_pos heq]
    unfold rootRelInside
    rw [hgr]
    decide
  · obtain ⟨ts, hts⟩ := compIsPre_exists _ _ hpre
    have hdc : dropCommon (pathComps root) (pathComps cand) = ([], ts) := by
      rw [hts]
      exact dropCommon_pre _ ts
    cases ts with
    | nil =>
      exfalso
      rw [List.append_nil] at hts
      refine heq ?_
      unfold goClean
      rw [hts, show pathRooted root = true from hroot, show pathRooted cand = true from hca]
    | cons t ts2 =>
      have htm : t ∈ pathComps cand := by
        rw [hts]
        exact List.mem_append_right _ (List.mem_cons_self t ts2)
      have hg : GoodComp t := pathComps_good cand t htm
      have hf : listHasPre t dotdot = false := by
        unfold firstRelCompDD at hfd
        rw [hdc] at hfd
        exact hfd
      have hbne : ¬((goIsAbs (goClean root) != goIsAbs (goClean cand)) = true) := by
        rw [goIsAbs_goClean, goIsAbs_goClean, hroot, hca]
        simp
      have hgr : goRel root cand = some (render false (t :: ts2)) := by
        unfold goRel
        rw [if_neg heq, if_neg hbne, hdc]
        dsimp only
        rw [if_neg (by decide : ¬((([] : List (List Char)).head? == some dotdot) = true))]
        simp only [List.length_nil, List.replicate_zero, List.nil_append]
      unfold rootRelInside
      rw [hgr, relOutside_render_false t ts2 hg hf]
      rfl

/-! Claim theorems. -/

/-- C10: whenever `Import` returns a non-nil error, the other two results
are the zero values — empty contents and an empty found-at path; a
partial result is never paired with an error. -/
theorem c10_error_atomicity (st : Importer) (fs : FS) (cwd f p : String) (e : ImpError)
    (h : (Import st fs cwd f p).1.err = some e) :
    (Import st fs cwd f p).1.contents = "" ∧ (Import st fs cwd f p).1.foundAt = "" := by
  cases hnp : containsNull p with
  | true =>
    rw [Import_nullPath st fs cwd f p hnp]
    exact ⟨rfl, rfl⟩
  | false =>
    cases hnf : containsNull f with
    | true =>
      rw [Import_nullFrom st fs cwd f p hnp hnf]
      exact ⟨rfl, rfl⟩
    | false =>
      rcases htp : tryPrimaryImport st fs cwd f p with ⟨tr, st2⟩
      cases tr with
      | found c f2 =>
        rw [Import_primary_found st st2 fs cwd f p c f2 hnp hnf htp] at h
        simp at h
      | failed e2 =>
        rw [Import_primary_failed st st2 fs cwd f p e2 hnp hnf htp]
        exact ⟨rfl, rfl⟩
      | notFound =>
        rw [Import_primary_notFound st st2 fs cwd f p hnp hnf htp] at h ⊢
        rw [searchJPaths_def] at h ⊢
        refine sjLoop_err_shape fs p _ st2 ?_
        rw [h]
        simp

/-- C10 witness: a concrete failing import (file not found anywhere)
returns empty contents and an empty found-at path. -/
theorem c10_error_atomicity_witness :
    (Import (mkImporter "/r" ["."]) ⟨[], []⟩ "/w" "" "nope").1.contents = ""
    ∧ (Import (mkImporter "/r" ["."]) ⟨[], []⟩ "/w" "" "nope").1.foundAt = "" :=
  c10_error_atomicity (mkImporter "/r" ["."]) ⟨[], []⟩ "/w" "" "nope" .fileNotFound
    (by decide)

/-- C6: idempotence through the cache — when an `Import` call succeeds,
repeating the identical request on the resulting importer state returns
the same contents, the same found-at path and the same state, against
any filesystem whatsoever; in particular removing the backing file
between the calls does not change the second result. -/
theorem c6_cache_idempotence (st : Importer) (fs fs2 : FS) (cwd f p : String)
    (h : (Import st fs cwd f p).1.err = none) :
    Import (Import st fs cwd f p).2 fs2 cwd f p = Import st fs cwd f p :=
  Import_replay st (Import st fs cwd f p).2 fs fs2 cwd f p (Import st fs cwd f p).1 rfl h

/-- C6 witness: a successful library-path import replayed on an emptied
filesystem returns the identical result. -/
theorem c6_cache_idempotence_witness :
    Import (Import (mkImporter "/r" ["lib"]) ⟨[("/r/lib/u.jsonnet", "U")], []⟩
        "/w" "" "u.jsonnet").2 ⟨[], []⟩ "/w" "" "u.jsonnet"
      = Import (mkImporter "/r" ["lib"]) ⟨[("/r/lib/u.jsonnet", "U")], []⟩
        "/w" "" "u.jsonnet" :=
  c6_cache_idempotence (mkImporter "/r" ["lib"]) ⟨[("/r/lib/u.jsonnet", "U")], []⟩
    ⟨[], []⟩ "/w" "" "u.jsonnet" (by decide)

/-- C7 counterexample: the claim says every `Import` after `Close`
returns an error, but a path that was imported (and therefore cached)
before the close is still served successfully from the cache. Here
`/r/a` is imported, the importer is closed, and the same import still
succeeds with the cached contents. -/
theorem c7_close_counterexample :
    (Import (Close (Import (mkImporter "/r" ["."]) ⟨[("/r/a", "A")], []⟩ "/w" "" "/r/a").2)
      ⟨[("/r/a", "A")], []⟩ "/w" "" "/r/a").1 = ⟨"A", "/r/a", none⟩ := by
  decide

/-- C7 (amended): after `Close` the importer never touches the
filesystem again — the result of any `Import` is independent of the
filesystem contents (so there is no unconfined read and no panic) — and
any `Import` that cannot be answered from the pre-close cache (here: an
empty cache) returns an error; imports answerable from the cache still
succeed with their cached results. -/
theorem c7_close_behavior (st : Importer) (fs fs2 : FS) (cwd f p : String)
    (h : st.closed = true) :
    Import st fs cwd f p = Import st fs2 cwd f p
    ∧ (st.fsCache = [] → (Import st fs cwd f p).1.err ≠ none) :=
  ⟨Import_closed_fsIndep st fs fs2 cwd f p h,
    fun hca => Import_closed_empty_err st fs cwd f p h hca⟩

/-- C7 witness: a closed importer with an empty cache gives the same
(error) result on two different filesystems, and that result is an
error. -/
theorem c7_close_behavior_witness :
    (Import (Close (mkImporter "/r" ["."])) ⟨[("/r/a", "A")], []⟩ "/w" "" "/r/a"
      = Import (Close (mkImporter "/r" ["."])) ⟨[], []⟩ "/w" "" "/r/a")
    ∧ (Import (Close (mkImporter "/r" ["."])) ⟨[("/r/a", "A")], []⟩ "/w" "" "/r/a").1.err
      ≠ none :=
  ⟨(c7_close_behavior (Close (mkImporter "/r" ["."])) ⟨[("/r/a", "A")], []⟩ ⟨[], []⟩
      "/w" "" "/r/a" rfl).1,
    (c7_close_behavior (Close (mkImporter "/r" ["."])) ⟨[("/r/a", "A")], []⟩ ⟨[], []⟩
      "/w" "" "/r/a" rfl).2 rfl⟩

/-- C5: a request that is a security-boundary violation — an
absolute import whose cleaned form is not the root or a descendant, or a
nested relative import whose primary candidate is not the root or a
descendant — returns the corresponding Forbidden error, never
`FileNotFound`, for every importer state: in particular the cache
contents, including any cached negative entry for the violating path,
cannot downgrade the violation to `FileNotFound`. -/
theorem c5_no_downgrade (st : Importer) (fs : FS) (cwd f p : String)
    (hroot : goIsAbs st.rootAbsPath = true)
    (hnp : containsNull p = false) (hnf : containsNull f = false) :
    (goIsAbs p = true → underRoot st.rootAbsPath (goClean p) = false →
      Import st fs cwd f p = (⟨"", "", some .forbiddenAbsolutePath⟩, st))
    ∧ (goIsAbs p = false → (f != "") = true →
      underRoot st.rootAbsPath (resolveImportPath cwd f p).1 = false →
      Import st fs cwd f p = (⟨"", "", some .forbiddenRelativePathTraversal⟩, st)) :=
  ⟨fun hpabs hout => Import_abs_outside st fs cwd f p hroot hnp hnf hpabs hout,
    fun hprel hfne hout => Import_nested_outside st fs cwd f p hroot hnp hnf hprel
      hfne hout⟩

/-- C5 witness: a violating absolute import on an importer that already
carries a cached negative entry for the very same path still fails with
the forbidden-absolute-path error, and a violating nested relative
request fails with the traversal error. -/
theorem c5_no_downgrade_witness :
    (Import ⟨["lib"], "/r", false, [("/q/a", CacheEntry.notExist)]⟩
      ⟨[], []⟩ "/w" "" "/q/a" = (⟨"", "", some .forbiddenAbsolutePath⟩,
        ⟨["lib"], "/r", false, [("/q/a", CacheEntry.notExist)]⟩))
    ∧ (Import (mkImporter "/r" ["lib"]) ⟨[], []⟩ "/w" "/r/f.jsonnet" "../../z"
      = (⟨"", "", some .forbiddenRelativePathTraversal⟩, mkImporter "/r" ["lib"])) :=
  ⟨(c5_no_downgrade ⟨["lib"], "/r", false, [("/q/a", CacheEntry.notExist)]⟩ ⟨[], []⟩
      "/w" "" "/q/a" (by decide) (by decide) (by decide)).1 (by decide) (by decide),
    (c5_no_downgrade (mkImporter "/r" ["lib"]) ⟨[], []⟩ "/w" "/r/f.jsonnet" "../../z"
      (by decide) (by decide) (by decide)).2 (by decide) (by decide) (by decide)⟩

/-- C1: confinement — on an importer whose cache is sound (in
particular a fresh one), every `Import` call that returns contents
successfully returns bytes of a file located at the root or a descendant
of the root, read through the confined root handle; and a read that
reaches a path whose operating-system resolution escapes the root (a
symbolic link inside the root pointing outward) yields an error, never
content. -/
theorem c1_confinement (st : Importer) (fs : FS) (cwd f p : String)
    (hra : goIsAbs st.rootAbsPath = true) (hrc : goClean st.rootAbsPath = st.rootAbsPath)
    (hok : CacheOK st fs) :
    ((Import st fs cwd f p).1.err = none →
      underRoot st.rootAbsPath (Import st fs cwd f p).1.foundAt = true
      ∧ fsLookup fs.files (Import st fs cwd f p).1.foundAt
        = some (Import st fs cwd f p).1.contents)
    ∧ (∀ a r, cacheLookup st.fsCache a = none → fs.escapes.contains r = true →
      st.closed = false → (tryAbsPath st fs a r).1 = .failed .readFile) := by
  refine ⟨?_, fun a r hl hm hcl => tryAbsPath_escape_err st fs a r hl hm hcl⟩
  intro herr
  cases hnp : containsNull p with
  | true =>
    rw [Import_nullPath st fs cwd f p hnp] at herr
    simp at herr
  | false =>
    cases hnf : containsNull f with
    | true =>
      rw [Import_nullFrom st fs cwd f p hnp hnf] at herr
      simp at herr
    | false =>
      have hreject : ∀ htp : tryPrimaryImport st fs cwd f p
          = primaryReject st (resolveImportPath cwd f p).2 f,
          underRoot st.rootAbsPath (Import st fs cwd f p).1.foundAt = true
          ∧ fsLookup fs.files (Import st fs cwd f p).1.foundAt
            = some (Import st fs cwd f p).1.contents := by
        intro htp
        rcases primaryReject_shape st (resolveImportPath cwd f p).2 f with hpr | hpr | hpr
        · rw [Import_primary_failed st st fs cwd f p _ hnp hnf (htp.trans hpr)] at herr
          simp at herr
        · rw [Import_primary_failed st st fs cwd f p _ hnp hnf (htp.trans hpr)] at herr
          simp at herr
        · rw [Import_primary_notFound st st fs cwd f p hnp hnf (htp.trans hpr),
            searchJPaths_def] at herr ⊢
          exact (sjLoop_confined fs p st.rootAbsPath hra hrc _ st rfl hok).1 herr
      cases hgr : goRel st.rootAbsPath (resolveImportPath cwd f p).1 with
      | none => exact hreject (tryPrimaryImport_none st fs cwd f p hgr)
      | some rel =>
        cases hc : (strStarts rel ".." || (strStarts rel "/" && rel != ".")) with
        | true => exact hreject (tryPrimaryImport_out st fs cwd f p rel hgr hc)
        | false =>
          have htp := tryPrimaryImport_in st fs cwd f p rel hgr hc
          have hlink : goJoin [st.rootAbsPath, rel] = (resolveImportPath cwd f p).1 :=
            goJoin_rel_roundtrip st.rootAbsPath _ rel hra hrc
              (resolveImportPath_fst_clean cwd f p) hgr hc
          have hconf := tryAbsPath_confined st fs (resolveImportPath cwd f p).1 rel
            hok hlink
          rcases htry : tryAbsPath st fs (resolveImportPath cwd f p).1 rel with ⟨tr, st2⟩
          rw [htry] at hconf
          have hs := tryAbsPath_state st fs (resolveImportPath cwd f p).1 rel
          rw [htry] at hs
          cases tr with
          | found c f2 =>
            rw [Import_primary_found st st2 fs cwd f p c f2 hnp hnf (htp.trans htry)]
            have hfacts := hconf.1 c f2 rfl
            constructor
            · show underRoot st.rootAbsPath f2 = true
              rw [hfacts.1]
              exact hfacts.2.1
            · show fsLookup fs.files f2 = some c
              rw [hfacts.1]
              exact hfacts.2.2
          | notFound =>
            rw [Import_primary_notFound st st2 fs cwd f p hnp hnf (htp.trans htry),
              searchJPaths_def] at herr ⊢
            exact (sjLoop_confined fs p st.rootAbsPath hra hrc _ st2 hs.1 hconf.2).1 herr
          | failed e =>
            rw [Import_primary_failed st st2 fs cwd f p e hnp hnf (htp.trans htry)] at herr
            simp at herr

/-- C1 witness: a successful concrete import lands inside the root and
returns exactly the file bytes, and a read whose relative path is an
escaping symbolic link fails with an error. -/
theorem c1_confinement_witness :
    (underRoot "/r" (Import (mkImporter "/r" ["."]) ⟨[("/r/a", "A")], ["lnk"]⟩
        "/r" "" "a").1.foundAt = true
      ∧ fsLookup [("/r/a", "A")] (Import (mkImporter "/r" ["."]) ⟨[("/r/a", "A")], ["lnk"]⟩
        "/r" "" "a").1.foundAt
        = some (Import (mkImporter "/r" ["."]) ⟨[("/r/a", "A")], ["lnk"]⟩
          "/r" "" "a").1.contents)
    ∧ (tryAbsPath (mkImporter "/r" ["."]) ⟨[("/r/a", "A")], ["lnk"]⟩ "/r/lnk" "lnk").1
      = .failed .readFile :=
  ⟨(c1_confinement (mkImporter "/r" ["."]) ⟨[("/r/a", "A")], ["lnk"]⟩ "/r" "" "a"
      (by decide) (by decide) (fun k e h => Option.noConfusion h)).1 (by decide),
    (c1_confinement (mkImporter "/r" ["."]) ⟨[("/r/a", "A")], ["lnk"]⟩ "/r" "" "a"
      (by decide) (by decide) (fun k e h => Option.noConfusion h)).2 "/r/lnk" "lnk"
      rfl (by decide) rfl⟩

/-- C2 counterexample: the claim says an absolute import whose cleaned
form is inside the root and whose file exists returns its content, but
`/r/..x` — a genuine descendant of the root `/r` holding a file — is
rejected with the forbidden-absolute-path error, because the
`filepath.Rel` remainder `..x` begins with the string `..`. -/
theorem c2_absolute_counterexample :
    underRoot "/r" (goClean "/r/..x") = true
    ∧ (Import (mkImporter "/r" ["."]) ⟨[("/r/..x", "X")], []⟩ "/w" "" "/r/..x").1
      = ⟨"", "", some .forbiddenAbsolutePath⟩ := by
  decide

/-- C2 (amended): for an absolute import, a cleaned form that is not the
root or a descendant is rejected with the forbidden-absolute-path error
and no library fallback is attempted; a cleaned form the `Rel`-based
test classifies inside the root (inside, and its root-relative remainder
does not begin with `..`) whose file exists is returned, read via the
root-relative form of the path; a descendant whose first root-relative
component begins with `..` is conservatively rejected (see the
counterexample). -/
theorem c2_absolute_behavior (st : Importer) (fs : FS) (cwd f p : String)
    (hra : goIsAbs st.rootAbsPath = true) (hrc : goClean st.rootAbsPath = st.rootAbsPath)
    (hnp : containsNull p = false) (hnf : containsNull f = false)
    (hpabs : goIsAbs p = true) :
    (underRoot st.rootAbsPath (goClean p) = false →
      Import st fs cwd f p = (⟨"", "", some .forbiddenAbsolutePath⟩, st))
    ∧ (∀ rel c, goRel st.rootAbsPath (goClean p) = some rel →
        (strStarts rel ".." || (strStarts rel "/" && rel != ".")) = false →
        cacheLookup st.fsCache (goClean p) = none →
        fs.escapes.contains rel = false → st.closed = false →
        fsLookup fs.files (goClean p) = some c →
        (Import st fs cwd f p).1 = ⟨c, goClean p, none⟩) := by
  refine ⟨fun hout => Import_abs_outside st fs cwd f p hra hnp hnf hpabs hout, ?_⟩
  intro rel c hgr hc hmiss hesc hcl hfl
  have hfst := resolveImportPath_fst_abs cwd f p hpabs
  have hres := Import_inside_found st fs cwd f p rel c hra hrc hnp hnf
    (by rw [hfst]; exact hgr) hc (by rw [hfst]; exact hmiss) hesc hcl
    (by rw [hfst]; exact hfl)
  rw [hres, hfst]

/-- C2 witness: an absolute import outside the root fails with the
forbidden-absolute-path error, and an absolute import of an existing
file inside the root returns its content at its cleaned path. -/
theorem c2_absolute_behavior_witness :
    (Import (mkImporter "/r" ["."]) ⟨[], []⟩ "/w" "" "/q/x"
      = (⟨"", "", some .forbiddenAbsolutePath⟩, mkImporter "/r" ["."]))
    ∧ (Import (mkImporter "/r" ["."]) ⟨[("/r/sub/x", "X")], []⟩ "/w" "" "/r/sub/x").1
      = ⟨"X", goClean "/r/sub/x", none⟩ :=
  ⟨(c2_absolute_behavior (mkImporter "/r" ["."]) ⟨[], []⟩ "/w" "" "/q/x"
      (by decide) (by decide) (by decide) (by decide) (by decide)).1 (by decide),
    (c2_absolute_behavior (mkImporter "/r" ["."]) ⟨[("/r/sub/x", "X")], []⟩ "/w" ""
      "/r/sub/x" (by decide) (by decide) (by decide) (by decide) (by decide)).2
      "sub/x" "X" (by decide) (by decide) rfl (by decide) rfl (by decide)⟩

/-- C3 counterexample: the claim says a nested relative import whose
cleaned join stays inside the root and whose target exists succeeds, but
the nested import `..x` from `/r/f.jsonnet` resolves to `/r/..x` — a
descendant of the root holding a file — and is still rejected with the
traversal error, because the `filepath.Rel` remainder begins with the
string `..`. -/
theorem c3_nested_counterexample :
    underRoot "/r" (resolveImportPath "/w" "/r/f.jsonnet" "..x").1 = true
    ∧ (Import (mkImporter "/r" ["."]) ⟨[("/r/..x", "X")], []⟩ "/w" "/r/f.jsonnet" "..x").1
      = ⟨"", "", some .forbiddenRelativePathTraversal⟩ := by
  decide

/-- C3 (amended): for a nested relative import, a primary candidate
(cleaned join of the importing file's absolute directory with the import
path) that is not the root or a descendant is rejected with the
traversal error and no library fallback is attempted; a candidate the
`Rel`-based test classifies inside the root — even when the import path
contains `..` segments — whose file exists is returned with its content;
a descendant whose first root-relative component begins with `..` is
conservatively rejected (see the counterexample). -/
theorem c3_nested_behavior (st : Importer) (fs : FS) (cwd f p : String)
    (hra : goIsAbs st.rootAbsPath = true) (hrc : goClean st.rootAbsPath = st.rootAbsPath)
    (hnp : containsNull p = false) (hnf : containsNull f = false)
    (hprel : goIsAbs p = false) (hfne : (f != "") = true) :
    (underRoot st.rootAbsPath (resolveImportPath cwd f p).1 = false →
      Import st fs cwd f p = (⟨"", "", some .forbiddenRelativePathTraversal⟩, st))
    ∧ (∀ rel c, goRel st.rootAbsPath (resolveImportPath cwd f p).1 = some rel →
        (strStarts rel ".." || (strStarts rel "/" && rel != ".")) = false →
        cacheLookup st.fsCache (resolveImportPath cwd f p).1 = none →
        fs.escapes.contains rel = false → st.closed = false →
        fsLookup fs.files (resolveImportPath cwd f p).1 = some c →
        (Import st fs cwd f p).1 = ⟨c, (resolveImportPath cwd f p).1, none⟩) :=
  ⟨fun hout => Import_nested_outside st fs cwd f p hra hnp hnf hprel hfne hout,
    fun rel c hgr hc hmiss hesc hcl hfl =>
      Import_inside_found st fs cwd f p rel c hra hrc hnp hnf hgr hc hmiss hesc hcl hfl⟩

/-- C3 witness: a nested `../../z` escaping the root from a nested file
fails with the traversal error, and a nested `../x.jsonnet` whose net
effect stays inside the root succeeds with the file's content. -/
theorem c3_nested_behavior_witness :
    (Import (mkImporter "/r" ["lib"]) ⟨[], []⟩ "/w" "/r/sub/f.jsonnet" "../../z"
      = (⟨"", "", some .forbiddenRelativePathTraversal⟩, mkImporter "/r" ["lib"]))
    ∧ (Import (mkImporter "/r" ["lib"]) ⟨[("/r/x.jsonnet", "XX")], []⟩ "/w"
        "/r/sub/f.jsonnet" "../x.jsonnet").1
      = ⟨"XX", (resolveImportPath "/w" "/r/sub/f.jsonnet" "../x.jsonnet").1, none⟩ :=
  ⟨(c3_nested_behavior (mkImporter "/r" ["lib"]) ⟨[], []⟩ "/w" "/r/sub/f.jsonnet" "../../z"
      (by decide) (by decide) (by decide) (by decide) (by decide) (by decide)).1 (by decide),
    (c3_nested_behavior (mkImporter "/r" ["lib"]) ⟨[("/r/x.jsonnet", "XX")], []⟩ "/w"
      "/r/sub/f.jsonnet" "../x.jsonnet" (by decide) (by decide) (by decide) (by decide)
      (by decide) (by decide)).2 "x.jsonnet" "XX" (by decide) (by decide) rfl (by decide)
      rfl (by decide)⟩

/-- C4: an initial import (empty importedFrom, relative path) whose
absolute resolution falls outside the root triggers no traversal or
absolute-path error; the library directories — with the root itself
(".") prepended to the configured list when not already present — are
searched in order, the first file found is returned, and the
file-not-found error is returned only after the whole chain is
exhausted. -/
theorem c4_initial_fallback (st : Importer) (fs : FS) (cwd p : String)
    (hra : goIsAbs st.rootAbsPath = true) (hrc : goClean st.rootAbsPath = st.rootAbsPath)
    (hnp : containsNull p = false) (hprel : goIsAbs p = false)
    (hout : underRoot st.rootAbsPath (resolveImportPath cwd "" p).1 = false)
    (hcl : st.closed = false) (hfse : fs.escapes = []) (hacc : CacheAcc st fs) :
    (Import st fs cwd "" p).1 =
      (match searchFirst st.rootAbsPath fs p (ensureDotInSearchPaths st.JPaths) with
        | some pr => ⟨pr.1, pr.2, none⟩
        | none => ⟨"", "", some ImpError.fileNotFound⟩) := by
  have hrel : relOutside (goRel st.rootAbsPath (resolveImportPath cwd "" p).1) = true :=
    outside_relOutside _ _ hra hout
  have hsnd := resolveImportPath_snd_rel cwd "" p hprel
  have htp : tryPrimaryImport st fs cwd "" p = (.notFound, st) := by
    cases hgr : goRel st.rootAbsPath (resolveImportPath cwd "" p).1 with
    | none =>
      rw [tryPrimaryImport_none st fs cwd "" p hgr, hsnd,
        primaryReject_false_initial st "" (by decide)]
    | some rel =>
      have hcond : (strStarts rel ".." || (strStarts rel "/" && rel != ".")) = true := by
        rw [hgr] at hrel
        exact hrel
      rw [tryPrimaryImport_out st fs cwd "" p rel hgr hcond, hsnd,
        primaryReject_false_initial st "" (by decide)]
  rw [Import_primary_notFound st st fs cwd "" p hnp (by decide) htp, searchJPaths_def]
  exact sjLoop_searchFirst fs p (ensureDotInSearchPaths st.JPaths) st hra hrc hcl hfse hacc

/-- C4 witness: an initial relative import whose resolution against the
working directory lies outside the root silently falls back to the
search chain and is found in the configured library directory. -/
theorem c4_initial_fallback_witness :
    (Import (mkImporter "/r" ["lib"]) ⟨[("/r/lib/u.jsonnet", "U")], []⟩ "/w" ""
      "u.jsonnet").1 = ⟨"U", "/r/lib/u.jsonnet", none⟩ :=
  (c4_initial_fallback (mkImporter "/r" ["lib"]) ⟨[("/r/lib/u.jsonnet", "U")], []⟩ "/w"
    "u.jsonnet" (by decide) (by decide) (by decide) (by decide) (by decide) rfl rfl
    (fun k e h => Option.noConfusion h)).trans (by decide)

/-- C8: construction-time library-path validation. (i) If
`NewSafeImporter` succeeds, every configured non-empty library path,
interpreted against the absolute root, resolves to the root or a
descendant of it. (ii) A null-free configuration containing a non-empty
library path that resolves outside the root makes construction fail with
the jpath-outside-root error. (iii) When every configured entry is empty
(or the list is empty), construction succeeds and `JPaths` defaults to
the single entry `"."` denoting the root itself. -/
theorem c8_construction (cwd rootDir : String) (jpaths : List String)
    (hrd : rootDir ≠ "")
    (hra : goIsAbs (rootAbsOf cwd rootDir) = true)
    (hrc : goClean (rootAbsOf cwd rootDir) = rootAbsOf cwd rootDir) :
    (∀ imp, NewSafeImporter cwd rootDir jpaths = .ok imp →
      ∀ jp ∈ jpaths, jp ≠ "" →
        underRoot (rootAbsOf cwd rootDir)
          (goClean (if goIsAbs jp then jp else goJoin [rootAbsOf cwd rootDir, jp]))
          = true)
    ∧ ((∀ jp2 ∈ jpaths, containsNull jp2 = false) →
      ∀ jp ∈ jpaths, jp ≠ "" →
        underRoot (rootAbsOf cwd rootDir)
          (goClean (if goIsAbs jp then jp else goJoin [rootAbsOf cwd rootDir, jp]))
          = false →
        ∃ jp2, NewSafeImporter cwd rootDir jpaths = .error (.jpathOutsideRoot jp2))
    ∧ ((∀ jp ∈ jpaths, jp = "") →
      NewSafeImporter cwd rootDir jpaths = .ok (mkImporter (rootAbsOf cwd rootDir) ["."]))
    := by
  refine ⟨?_, ?_, ?_⟩
  · intro imp h jp hm hne
    obtain ⟨acc, hpl⟩ := NewSafeImporter_ok_processLoop cwd rootDir jpaths imp h
    have hnil : jpaths ≠ [] := List.ne_nil_of_mem hm
    rw [if_neg hnil] at hpl
    obtain ⟨rel, hres⟩ := processLoop_ok_resolves (rootAbsOf cwd rootDir) jpaths acc
      hpl jp hm hne
    exact resolveJPath_some_inside (rootAbsOf cwd rootDir) jp rel hra hres
  · intro hnull jp hm hne hout
    have hres : resolveJPath (rootAbsOf cwd rootDir) jp = none :=
      resolveJPath_none_of_outside (rootAbsOf cwd rootDir) jp hra hout
    obtain ⟨jp2, hpl⟩ := processLoop_err_of_outside (rootAbsOf cwd rootDir) jpaths
      hnull jp hm hne hres
    have hnil : jpaths ≠ [] := List.ne_nil_of_mem hm
    refine ⟨jp2, NewSafeImporter_errArm cwd rootDir jpaths _ hrd
      (processJPaths_err _ _ _ ?_)⟩
    rw [if_neg hnil]
    exact hpl
  · intro hall
    by_cases hnil : jpaths = []
    · subst hnil
      have hpl : processLoop (rootAbsOf cwd rootDir)
          (if ([] : List String) = [] then ["."] else []) = .ok ["."] := by
        rw [if_pos rfl]
        exact processLoop_dot (rootAbsOf cwd rootDir) hra hrc
      have hpj := processJPaths_ok (rootAbsOf cwd rootDir) [] ["."] hpl
      rw [if_neg (by decide)] at hpj
      exact NewSafeImporter_okArm cwd rootDir [] ["."] hrd hpj
    · have hpl : processLoop (rootAbsOf cwd rootDir)
          (if jpaths = [] then ["."] else jpaths) = .ok [] := by
        rw [if_neg hnil]
        exact processLoop_all_empty (rootAbsOf cwd rootDir) jpaths hall
      have hpj := processJPaths_ok (rootAbsOf cwd rootDir) jpaths [] hpl
      rw [if_pos rfl] at hpj
      exact NewSafeImporter_okArm cwd rootDir jpaths ["."] hrd hpj

/-- C8 witness: a relative library path inside the root is accepted and
classified under the root; an absolute library path outside the root
fails construction with the jpath-outside-root error; an empty
configuration defaults to the single search path `"."`. -/
theorem c8_construction_witness :
    underRoot (rootAbsOf "/w" "/r")
      (goClean (if goIsAbs "lib" then "lib" else goJoin [rootAbsOf "/w" "/r", "lib"]))
      = true
    ∧ (∃ jp2, NewSafeImporter "/w" "/r" ["/q"] = .error (.jpathOutsideRoot jp2))
    ∧ NewSafeImporter "/w" "/r" [] = .ok (mkImporter (rootAbsOf "/w" "/r") ["."]) :=
  ⟨(c8_construction "/w" "/r" ["lib"] (by decide) (by decide) (by decide)).1
      (mkImporter (rootAbsOf "/w" "/r") ["lib"]) rfl "lib" (by decide) (by decide),
    (c8_construction "/w" "/r" ["/q"] (by decide) (by decide) (by decide)).2.1
      (by
        intro jp2 hm
        rw [List.mem_singleton] at hm
        subst hm
        decide)
      "/q" (by decide) (by decide) (by decide),
    (c8_construction "/w" "/r" [] (by decide) (by decide) (by decide)).2.2
      (fun jp hm => nomatch hm)⟩

/-- C9 counterexample: the claim says the inside-root classification is
exactly the strict-subpath relation, but the candidate `/r/..x` — a
cleaned path, a strict subpath of the root `/r` both by the source's
`isSubpath` string test and by components — is classified outside,
because the `filepath.Rel` remainder `..x` begins with the string
`..`. -/
theorem c9_subpath_counterexample :
    isSubpath "/r" "/r/..x" = true
    ∧ goClean "/r/..x" = "/r/..x"
    ∧ underRoot "/r" "/r/..x" = true
    ∧ rootRelInside "/r" "/r/..x" = false := by
  decide

/-- C9 (amended): the `Rel`-based inside-root classification is strictly
contained in the strict-subpath relation. (1) Soundness: a candidate
classified inside is the root or a path below it — in particular there
are no string-prefix false positives across sibling directories sharing
a name prefix. (2) The root itself is classified inside. (3) Completion
on ordinary names: a candidate that is the root or below it and whose
first root-relative component does not begin with two dots is classified
inside; only descendants whose first component begins with `..` are
(conservatively) classified outside (see the counterexample). -/
theorem c9_inside_classification (root cand : String) (hroot : goIsAbs root = true) :
    (rootRelInside root cand = true → underRoot root cand = true)
    ∧ rootRelInside root root = true
    ∧ (underRoot root cand = true → firstRelCompDD root cand = false →
        rootRelInside root cand = true) := by
  refine ⟨fun h => rootRelInside_underRoot root cand hroot h, ?_,
    fun hu hfd => inside_of_under_nodd root cand hroot hu hfd⟩
  unfold rootRelInside
  rw [goRel_self root]
  decide

/-- C9 witness: a genuine subdirectory is classified inside and is a
semantic descendant; the root is inside itself. -/
theorem c9_inside_classification_witness :
    underRoot "/r" "/r/sub" = true
    ∧ rootRelInside "/r" "/r" = true
    ∧ rootRelInside "/r" "/r/sub" = true :=
  ⟨(c9_inside_classification "/r" "/r/sub" (by decide)).1 (by decide),
    (c9_inside_classification "/r" "/r" (by decide)).2.1,
    (c9_inside_classification "/r" "/r/sub" (by decide)).2.2 (by decide) (by decide)⟩

end Safesonnet
